import Mathlib

/-!
# golog: the line-formatting pipeline of `Logger`

A shallow embedding of `log.go` and `parts.go`.

* A Go `string` is modelled by the list of its code points (`GoString`), and the
  byte buffer `buf` by the list of characters appended to it; every byte the
  built-in parts append with `WriteRawByte` is ASCII.
* The `io.Writer` held in `output` is modelled by its history: the list of
  byte strings handed to `Write`, oldest first.
* The tables and helpers that `log.go` and `parts.go` use but do not declare
  (`levelString`, `colorFromLevel`, `NoColor`, `logColorPrefix`, `logColorSuffix`,
  `colorByName`, `itoa`) are the fields of `Tables`; the general theorems hold for all of
  them, and `sampleTables` is one instance, used to evaluate the code.
* `str2loglevel`, also declared elsewhere, is a parameter of `SetLevelByString`, and the
  registry function `add` is modelled from the specification.
* What the Go runtime and the operating system answer during a call
  (`time.Now`, `os.Getpid`, `runtime.Caller`, `runtime.Stack`) is the record `Sys`.
* The package variable `Goid` and the number of clock readings taken so far are
  the record `Proc`, threaded through the part functions next to the `Logger`.
-/

namespace Golog

/-- A Go string, as the sequence of its code points. -/
abbrev GoString := List Char

/-- Severity, `type Level` of the package: an integer type ordered by `<`. -/
abbrev Level := Int

/-- Colour code, `type Color` of the package. -/
abbrev Color := Int

/-- Modelled from the spec: the severity enumeration {Debug, Info, Warn, Error} is
declared outside `log.go` and `parts.go`; it is ordered, with Debug the lowest. -/
def Level_Debug : Level := 0

/-- Modelled from the spec: second severity of the ordered enumeration. -/
def Level_Info : Level := 1

/-- Modelled from the spec: third severity of the ordered enumeration. -/
def Level_Warn : Level := 2

/-- Modelled from the spec: fourth severity of the ordered enumeration. -/
def Level_Error : Level := 3

/-- The colour matcher: `log.go` uses it only through `ColorFromText`. -/
structure ColorFile where
  ColorFromText : GoString → Color

/-- The part functions of the package, as values of `type PartFunc func(*Logger)`.
Function values are told apart by which function they are. -/
inductive PartFunc where
  | logPart_ColorBegin
  | logPart_ColorEnd
  | LogPart_ShortFileName
  | LogPart_LongFileName
  | LogPart_Level
  | LogPart_Name
  | LogPart_Pid
  | LogPart_Gid
  | logPart_Text
  | logPart_Line
  | LogPart_Time
  | LogPart_TimeMS
  deriving DecidableEq, Repr

/-- The exported part functions: the ones a client of the package can pass to
`SetParts`, which are also the ones a directive string can name. -/
def PartFunc.exported : PartFunc → Bool
  | .LogPart_ShortFileName => true
  | .LogPart_LongFileName => true
  | .LogPart_Level => true
  | .LogPart_Name => true
  | .LogPart_Pid => true
  | .LogPart_Gid => true
  | .LogPart_Time => true
  | .LogPart_TimeMS => true
  | _ => false

/-- The struct `Logger` (log.go:29-44), without the mutex. `output` is the history of
the writer: every byte string passed to `Write`, oldest first. -/
structure Logger where
  buf : GoString
  level : Level
  enableColor : Bool
  name : GoString
  colorFile : Option ColorFile
  parts : List PartFunc
  output : List GoString
  currColor : Color
  currLevel : Level
  currText : GoString

/-- The declarations the two source files use and do not contain. `itoa i wid` is the
text that `itoa(log, i, wid)` appends to the buffer. -/
structure Tables where
  NoColor : Color
  levelString : Level → GoString
  colorFromLevel : Level → Color
  logColorPrefix : Color → GoString
  logColorSuffix : GoString
  colorByName : GoString → Color
  itoa : Int → Int → GoString

/-- A reading of `time.Now()`: the results of `Date`, `Clock` and `Nanosecond`. -/
structure Time where
  year : Int
  month : Int
  day : Int
  hour : Int
  min : Int
  sec : Int
  nanosecond : Int

/-- The answers of the runtime during a call: `now n` is the n-th reading of the
clock, `pid` the result of `os.Getpid`, `callerFile`, `callerLine`, `callerOk` the
results of `runtime.Caller(4)`, and `stackGoid` the goroutine id that `getGoId` parses
from `runtime.Stack` (0 when parsing fails or panics). -/
structure Sys where
  now : Nat → Time
  pid : Int
  callerFile : GoString
  callerLine : Int
  callerOk : Bool
  stackGoid : Int

/-- Process-wide state next to the logger: the package variable `Goid` and the number
of clock readings taken so far. -/
structure Proc where
  Goid : Int
  clock : Nat

/-! ## log.go -/

/-- log.go:115 `WriteRawString`. -/
def WriteRawString (self : Logger) (s : GoString) : Logger :=
  { self with buf := self.buf ++ s }

/-- log.go:119 `WriteRawByte`. -/
def WriteRawByte (self : Logger) (b : Char) : Logger :=
  { self with buf := self.buf ++ [b] }

/-- The helper `itoa(log, i, wid)`: appends the decimal text of `i` given by the table. -/
def itoa (T : Tables) (log : Logger) (i wid : Int) : Logger :=
  WriteRawString log (T.itoa i wid)

/-- log.go:68 `EnableColor`. -/
def EnableColor (self : Logger) (v : Bool) : Logger :=
  { self with enableColor := v }

/-- log.go:72 `SetParts`. -/
def SetParts (self : Logger) (f : List PartFunc) : Logger :=
  let self := { self with parts := [PartFunc.logPart_ColorBegin] }
  let self := { self with parts := self.parts ++ f }
  { self with parts := self.parts ++
      [PartFunc.logPart_Text, PartFunc.logPart_ColorEnd, PartFunc.logPart_Line] }

/-- The predicate `unicode.IsSpace` of the Go library. -/
def isSpace (r : Char) : Bool :=
  r.toNat = 0x09 || r.toNat = 0x0A || r.toNat = 0x0B || r.toNat = 0x0C ||
  r.toNat = 0x0D || r.toNat = 0x20 || r.toNat = 0x85 || r.toNat = 0xA0 ||
  r.toNat = 0x1680 || (0x2000 ≤ r.toNat && r.toNat ≤ 0x200A) ||
  r.toNat = 0x2028 || r.toNat = 0x2029 || r.toNat = 0x202F ||
  r.toNat = 0x205F || r.toNat = 0x3000

/-- The scan of `strings.Fields`: `cur` is the field being read; a white space
character closes it when it is not empty. -/
def fieldsFrom : GoString → GoString → List GoString
  | [], cur => if cur = [] then [] else [cur]
  | r :: rest, cur =>
    if isSpace r then
      if cur = [] then fieldsFrom rest [] else cur :: fieldsFrom rest []
    else fieldsFrom rest (cur ++ [r])

/-- The Go library function `strings.Fields`: the maximal runs of characters that are
not white space, in order. -/
def Fields (s : GoString) : List GoString :=
  fieldsFrom s []

/-- One turn of the loop of `SetPartsByString` (log.go:91-108): the `switch` on the
token `v`. -/
def SetPartsByString.step (self : Logger) (v : GoString) : Logger :=
  if v = "%L".data then { self with parts := self.parts ++ [PartFunc.LogPart_Level] }
  else if v = "%T".data then { self with parts := self.parts ++ [PartFunc.LogPart_TimeMS] }
  else if v = "%t".data then { self with parts := self.parts ++ [PartFunc.LogPart_Time] }
  else if v = "%F".data then
    { self with parts := self.parts ++ [PartFunc.LogPart_LongFileName] }
  else if v = "%f".data then
    { self with parts := self.parts ++ [PartFunc.LogPart_ShortFileName] }
  else if v = "%N".data then { self with parts := self.parts ++ [PartFunc.LogPart_Name] }
  else if v = "%P".data then { self with parts := self.parts ++ [PartFunc.LogPart_Pid] }
  else if v = "%G".data then { self with parts := self.parts ++ [PartFunc.LogPart_Gid] }
  else self

/-- log.go:86 `SetPartsByString`. -/
def SetPartsByString (self : Logger) (s : GoString) : Logger :=
  let self := { self with parts := [PartFunc.logPart_ColorBegin] }
  let self := (Fields s).foldl SetPartsByString.step self
  { self with parts := self.parts ++
      [PartFunc.logPart_Text, PartFunc.logPart_ColorEnd, PartFunc.logPart_Line] }

/-- log.go:127 `selectColorByLevel`. -/
def selectColorByLevel (T : Tables) (self : Logger) : Logger :=
  let levelColor := T.colorFromLevel self.currLevel
  if levelColor ≠ T.NoColor then { self with currColor := levelColor } else self

/-- log.go:135 `selectColorByText`. The test `colorFile != nil` is the `match`. -/
def selectColorByText (T : Tables) (self : Logger) : Logger :=
  match self.colorFile with
  | some file =>
    if self.enableColor && self.currColor == T.NoColor then
      { self with currColor := file.ColorFromText self.currText }
    else self
  | none => self

/-! ## parts.go -/

/-- parts.go:12 `logPart_ColorBegin`. -/
def logPart_ColorBegin (T : Tables) (log : Logger) : Logger :=
  if log.enableColor && log.currColor != T.NoColor then
    WriteRawString log (T.logColorPrefix log.currColor)
  else log

/-- parts.go:20 `logPart_ColorEnd`. -/
def logPart_ColorEnd (T : Tables) (log : Logger) : Logger :=
  if log.enableColor && log.currColor != T.NoColor then
    WriteRawString log T.logColorSuffix
  else log

/-- The loop of parts.go:58-63, entered with `i`: it walks down while `i > 0` and stops
at the first `/`, giving `file[i+1:]`; `file` when no index above 0 holds a `/`. -/
def shortLoop (file : GoString) : Nat → GoString
  | 0 => file
  | i + 1 => if file.get? (i + 1) = some '/' then file.drop (i + 2) else shortLoop file i

/-- parts.go:39 `writeFilePart`. -/
def writeFilePart (T : Tables) (sys : Sys) (log : Logger) (shortFile longFile : Bool) :
    Logger :=
  if shortFile || longFile then
    let fl : GoString × Int :=
      if shortFile || longFile then
        if !sys.callerOk then ("???".data, 0) else (sys.callerFile, sys.callerLine)
      else ([], 0)
    let file := if shortFile then shortLoop fl.1 (fl.1.length - 1) else fl.1
    let log := WriteRawString log file
    let log := WriteRawByte log ':'
    let log := itoa T log fl.2 (-1)
    WriteRawString log ": ".data
  else log

/-- parts.go:29 `LogPart_ShortFileName`. -/
def LogPart_ShortFileName (T : Tables) (sys : Sys) (log : Logger) : Logger :=
  writeFilePart T sys log true false

/-- parts.go:34 `LogPart_LongFileName`. -/
def LogPart_LongFileName (T : Tables) (sys : Sys) (log : Logger) : Logger :=
  writeFilePart T sys log false true

/-- parts.go:74 `LogPart_Level`. -/
def LogPart_Level (T : Tables) (log : Logger) : Logger :=
  let log := WriteRawString log (T.levelString log.currLevel)
  WriteRawByte log ' '

/-- parts.go:80 `LogPart_Name`. -/
def LogPart_Name (log : Logger) : Logger :=
  if log.name ≠ [] then
    let log := WriteRawString log log.name
    WriteRawByte log ' '
  else log

/-- parts.go:91 `LogPart_Pid`. -/
def LogPart_Pid (T : Tables) (sys : Sys) (log : Logger) : Logger :=
  let log := itoa T log sys.pid (-1)
  WriteRawString log " ".data

/-- parts.go:103 `getGoId`: the memoized goroutine id. -/
def getGoId (sys : Sys) (p : Proc) : Int × Proc :=
  if p.Goid ≠ 0 then (p.Goid, p)
  else (sys.stackGoid, { p with Goid := sys.stackGoid })

/-- parts.go:97 `LogPart_Gid`. -/
def LogPart_Gid (T : Tables) (sys : Sys) (st : Logger × Proc) : Logger × Proc :=
  let r := getGoId sys st.2
  let log := itoa T st.1 r.1 (-1)
  (WriteRawString log " ".data, r.2)

/-- parts.go:122 `logPart_Text`. -/
def logPart_Text (log : Logger) : Logger :=
  WriteRawString log log.currText

/-- parts.go:127 `logPart_Line`. -/
def logPart_Line (log : Logger) : Logger :=
  let l := log.currText.length
  if (l > 0 && log.currText.get? (l - 1) != some '\n') || l == 0 then
    WriteRawByte log '\n'
  else log

/-- parts.go:148 `writeTimePart`. -/
def writeTimePart (T : Tables) (sys : Sys) (st : Logger × Proc) (ms : Bool) :
    Logger × Proc :=
  let now := sys.now st.2.clock
  let p : Proc := { st.2 with clock := st.2.clock + 1 }
  let log := itoa T st.1 now.year 4
  let log := WriteRawByte log '/'
  let log := itoa T log now.month 2
  let log := WriteRawByte log '/'
  let log := itoa T log now.day 2
  let log := WriteRawByte log ' '
  let log := itoa T log now.hour 2
  let log := WriteRawByte log ':'
  let log := itoa T log now.min 2
  let log := WriteRawByte log ':'
  let log := itoa T log now.sec 2
  let log :=
    if ms then
      let log := WriteRawByte log '.'
      itoa T log (Int.tdiv now.nanosecond 1000) 6
    else log
  (WriteRawByte log ' ', p)

/-- parts.go:138 `LogPart_Time`. -/
def LogPart_Time (T : Tables) (sys : Sys) (st : Logger × Proc) : Logger × Proc :=
  writeTimePart T sys st false

/-- parts.go:143 `LogPart_TimeMS`. -/
def LogPart_TimeMS (T : Tables) (sys : Sys) (st : Logger × Proc) : Logger × Proc :=
  writeTimePart T sys st true

/-- The call `p(self)` of a part function value (log.go:163). -/
def callPart (T : Tables) (sys : Sys) : PartFunc → Logger × Proc → Logger × Proc
  | .logPart_ColorBegin, st => (logPart_ColorBegin T st.1, st.2)
  | .logPart_ColorEnd, st => (logPart_ColorEnd T st.1, st.2)
  | .LogPart_ShortFileName, st => (LogPart_ShortFileName T sys st.1, st.2)
  | .LogPart_LongFileName, st => (LogPart_LongFileName T sys st.1, st.2)
  | .LogPart_Level, st => (LogPart_Level T st.1, st.2)
  | .LogPart_Name, st => (LogPart_Name st.1, st.2)
  | .LogPart_Pid, st => (LogPart_Pid T sys st.1, st.2)
  | .LogPart_Gid, st => LogPart_Gid T sys st
  | .logPart_Text, st => (logPart_Text st.1, st.2)
  | .logPart_Line, st => (logPart_Line st.1, st.2)
  | .LogPart_Time, st => LogPart_Time T sys st
  | .LogPart_TimeMS, st => LogPart_TimeMS T sys st

/-- The loop of log.go:162-164: every part of the list is called in order. -/
def runParts (T : Tables) (sys : Sys) (ps : List PartFunc) (st : Logger × Proc) :
    Logger × Proc :=
  ps.foldl (fun acc p => callPart T sys p acc) st

/-- The state of log.go:160 on a call that passes the filter: severity and text
stored, colour selected, buffer cut to length 0. The parts run on this state. -/
def Log.ready (T : Tables) (self : Logger) (level : Level) (text : GoString) : Logger :=
  let self := { self with currLevel := level, currText := text }
  let self := selectColorByText T self
  let self := selectColorByLevel T self
  { self with buf := [] }

/-- log.go:144 `Log`. -/
def Log (T : Tables) (sys : Sys) (st : Logger × Proc) (level : Level) (text : GoString) :
    Logger × Proc :=
  let self := { st.1 with currLevel := level, currText := text }
  if self.currLevel < self.level then (self, st.2)
  else
    let self := selectColorByText T self
    let self := selectColorByLevel T self
    let self := { self with buf := [] }
    let r := runParts T sys self.parts (self, st.2)
    let self := { r.1 with output := r.1.output ++ [r.1.buf] }
    ({ self with currColor := T.NoColor }, r.2)

/-- log.go:171 `SetColor`. -/
def SetColor (T : Tables) (self : Logger) (name : GoString) : Logger :=
  { self with currColor := T.colorByName name }

/-- log.go:222 `SetLevel`. -/
def SetLevel (self : Logger) (lv : Level) : Logger :=
  { self with level := lv }

/-- log.go:231 `SetColorFile`. -/
def SetColorFile (self : Logger) (file : Option ColorFile) : Logger :=
  { self with colorFile := file }

/-- Modelled from the spec: `add(logger)`, declared outside `log.go` and `parts.go`,
registers the logger in the process-wide registry. The registry is modelled by the names
of the registered loggers, oldest first. -/
def add (registry : List GoString) (l : Logger) : List GoString :=
  registry ++ [l.name]

/-- log.go:53 `New`. The fields the literal does not set hold the zero value of their
type; `output` is `os.Stdout`, to which this logger has written nothing yet. The result
is the new logger and the registry after `add`. -/
def New (registry : List GoString) (name : GoString) : Logger × List GoString :=
  let l : Logger :=
    { buf := [], level := Level_Debug, enableColor := false, name := name,
      colorFile := none, parts := [], output := [], currColor := 0, currLevel := 0,
      currText := [] }
  let l := SetParts l
    [PartFunc.LogPart_Level, PartFunc.LogPart_Name, PartFunc.LogPart_Time]
  (l, add registry l)

/-- log.go:123 `Name`. -/
def Logger.Name (self : Logger) : GoString :=
  self.name

/-- log.go:216 `SetLevelByString`; `str2loglevel` is declared outside `log.go` and
`parts.go` and is a parameter. -/
def SetLevelByString (str2loglevel : GoString → Level) (self : Logger) (level : GoString) :
    Logger :=
  SetLevel self (str2loglevel level)

/-- log.go:226 `Level`, the method that reads the threshold. -/
def Logger.Level (self : Logger) : Golog.Level :=
  self.level

/-- log.go:234 `IsDebugEnabled`. -/
def IsDebugEnabled (self : Logger) : Bool :=
  self.level == Level_Debug

/-! ## Derived quantities used in the statements -/

/-- A call of one of the public operations of a logger, with its arguments; a `Log`
call carries the answers of the runtime during the call. -/
inductive Op where
  | SetParts (f : List PartFunc)
  | SetPartsByString (s : GoString)
  | Log (sys : Sys) (level : Level) (text : GoString)
  | SetLevel (lv : Level)
  | SetLevelByString (level : GoString)
  | EnableColor (v : Bool)
  | SetColor (name : GoString)
  | SetColorFile (file : Option ColorFile)
  | WriteRawString (s : GoString)
  | WriteRawByte (b : Char)

/-- The effect of one public operation on the logger and the process state. -/
def applyOp (T : Tables) (str2loglevel : GoString → Level) (st : Logger × Proc) :
    Op → Logger × Proc
  | .SetParts f => (SetParts st.1 f, st.2)
  | .SetPartsByString s => (SetPartsByString st.1 s, st.2)
  | .Log sys level text => Log T sys st level text
  | .SetLevel lv => (SetLevel st.1 lv, st.2)
  | .SetLevelByString level => (SetLevelByString str2loglevel st.1 level, st.2)
  | .EnableColor v => (EnableColor st.1 v, st.2)
  | .SetColor name => (SetColor T st.1 name, st.2)
  | .SetColorFile file => (SetColorFile st.1 file, st.2)
  | .WriteRawString s => (WriteRawString st.1 s, st.2)
  | .WriteRawByte b => (WriteRawByte st.1 b, st.2)

/-- The state after a sequence of public operations, applied in order. -/
def runOps (T : Tables) (str2loglevel : GoString → Level) (st : Logger × Proc)
    (ops : List Op) : Logger × Proc :=
  ops.foldl (applyOp T str2loglevel) st

/-- The framing of a pipeline: at least four parts, `logPart_ColorBegin` first, and
`logPart_Text`, `logPart_ColorEnd`, `logPart_Line` as the last three. -/
def framedPipeline (ps : List PartFunc) : Bool :=
  decide (4 ≤ ps.length) && (ps.head? == some PartFunc.logPart_ColorBegin) &&
    (ps.drop (ps.length - 3) ==
      [PartFunc.logPart_Text, PartFunc.logPart_ColorEnd, PartFunc.logPart_Line])

/-- The final path segment as the specification words it: the part of the path after its
last `/`, the whole path when it holds no `/`. -/
def specLastSegment (p : GoString) : GoString :=
  (p.reverse.takeWhile (fun c => c != '/')).reverse

/-- A sequence of `Log` calls on one logger, each given as severity and text. -/
def logSeq (T : Tables) (sys : Sys) (st : Logger × Proc) (calls : List (Level × GoString)) :
    Logger × Proc :=
  calls.foldl (fun acc c => Log T sys acc c.1 c.2) st

/-- The text a part appends: what it leaves in an empty buffer. -/
def partText (T : Tables) (sys : Sys) (p : PartFunc) (l : Logger) (pr : Proc) : GoString :=
  (callPart T sys p ({ l with buf := [] }, pr)).1.buf

/-- The process state after a part has run. -/
def partProc (T : Tables) (sys : Sys) (p : PartFunc) (l : Logger) (pr : Proc) : Proc :=
  (callPart T sys p ({ l with buf := [] }, pr)).2

/-- The text a list of parts appends, in order: what they leave in an empty buffer. -/
def partsText (T : Tables) (sys : Sys) (ps : List PartFunc) (l : Logger) (pr : Proc) :
    GoString :=
  (runParts T sys ps ({ l with buf := [] }, pr)).1.buf

/-- The process state after a list of parts has run. -/
def partsProc (T : Tables) (sys : Sys) (ps : List PartFunc) (l : Logger) (pr : Proc) :
    Proc :=
  (runParts T sys ps ({ l with buf := [] }, pr)).2

/-- The test of `logPart_ColorBegin` and `logPart_ColorEnd` (parts.go:14, parts.go:22) on
the state the parts of `Log(level, text)` run on: whether the call emits colour escapes. -/
def Log.colorActive (T : Tables) (self : Logger) (level : Level) (text : GoString) : Bool :=
  (Log.ready T self level text).enableColor &&
    (Log.ready T self level text).currColor != T.NoColor

/-- Whether a text ends in a newline. -/
def endsInNewline (t : GoString) : Bool :=
  t.getLast? == some '\n'

/-! ## The directive table as the specification words it -/

/-- The directive table of the specification, section 4.1: the part a recognized token
stands for, `none` for every other token. -/
def specDirective (v : GoString) : Option PartFunc :=
  if v = "%L".data then some PartFunc.LogPart_Level
  else if v = "%T".data then some PartFunc.LogPart_TimeMS
  else if v = "%t".data then some PartFunc.LogPart_Time
  else if v = "%F".data then some PartFunc.LogPart_LongFileName
  else if v = "%f".data then some PartFunc.LogPart_ShortFileName
  else if v = "%N".data then some PartFunc.LogPart_Name
  else if v = "%P".data then some PartFunc.LogPart_Pid
  else if v = "%G".data then some PartFunc.LogPart_Gid
  else none

/-- The eight recognized directive tokens. -/
def recognizedTokens : List GoString :=
  ["%L".data, "%T".data, "%t".data, "%F".data, "%f".data, "%N".data, "%P".data, "%G".data]

/-- Splitting on white space as the specification words it: cut the string at every
white space character and keep the pieces that are not empty. -/
def specSplit (s : GoString) : List GoString :=
  (s.splitOnP isSpace).filter (fun v => !v.isEmpty)

/-! ## A concrete instance of the tables, for evaluation -/

/-- Modelled from the spec: `itoa` writes the decimal digits of the number, padded with
zeros on the left up to the width when a width is specified, unpadded otherwise. -/
def itoaDecimal (i wid : Int) : GoString :=
  let ds := Nat.toDigits 10 i.toNat
  List.replicate (wid.toNat - ds.length) '0' ++ ds

/-- Modelled from the spec: one instance of the level and colour tables. `INFO` is the
display string of Info; Warn and Error have a colour, Debug and Info have none; colour 0
is the sentinel; a colour maps to a terminal escape sequence. -/
def sampleTables : Tables where
  NoColor := 0
  levelString := fun lv =>
    if lv = Level_Debug then "DEBUG".data
    else if lv = Level_Info then "INFO".data
    else if lv = Level_Warn then "WARN".data
    else if lv = Level_Error then "ERROR".data
    else []
  colorFromLevel := fun lv =>
    if lv = Level_Warn then 4 else if lv = Level_Error then 2 else 0
  logColorPrefix := fun c => [Char.ofNat 27, '['] ++ itoaDecimal (29 + c) 3 ++ ['m']
  logColorSuffix := [Char.ofNat 27, '[', '0', 'm']
  colorByName := fun n =>
    if n = "red".data then 2 else if n = "green".data then 3
    else if n = "yellow".data then 4 else if n = "blue".data then 5 else 0
  itoa := itoaDecimal

/-- A fixed set of runtime answers: the clock always reads 2024/01/02 03:04:05.000006,
the process id is 4242, the caller is `/home/u/app/main.go:17`, the goroutine id is 1. -/
def sampleSys : Sys where
  now := fun _ => { year := 2024, month := 1, day := 2, hour := 3, min := 4, sec := 5,
                    nanosecond := 6789 }
  pid := 4242
  callerFile := "/home/u/app/main.go".data
  callerLine := 17
  callerOk := true
  stackGoid := 1

/-- The process state at start: `Goid` not yet resolved, no clock reading taken. -/
def sampleProc : Proc := { Goid := 0, clock := 0 }

/-- A logger named `svc` with threshold Info, colouring off, no matcher, an empty
pipeline, and a stale buffer. -/
def sampleLogger : Logger where
  buf := "stale".data
  level := Level_Info
  enableColor := false
  name := "svc".data
  colorFile := none
  parts := []
  output := []
  currColor := 0
  currLevel := 0
  currText := []


/-- A logger with colouring enabled whose matcher gives colour 5 to the text `oops` and no
colour to any other text. -/
def colorLogger : Logger :=
  { sampleLogger with
    enableColor := true
    colorFile := some { ColorFromText := fun t => if t = "oops".data then 5 else 0 } }

/-- The sample logger with the `%L` pipeline, colouring enabled and the colour `red`
preset with `SetColor`; its threshold is Info. -/
def presetLogger : Logger :=
  SetColor sampleTables (EnableColor (SetPartsByString sampleLogger "%L".data) true)
    "red".data

/-! ## Frame lemmas: a part function only appends to the buffer -/

theorem WriteRawByte_eq (l : Logger) (b : Char) : WriteRawByte l b = WriteRawString l [b] :=
  rfl

theorem itoa_eq (T : Tables) (l : Logger) (i wid : Int) :
    itoa T l i wid = WriteRawString l (T.itoa i wid) :=
  rfl

theorem WriteRawString_twice (l : Logger) (a b : GoString) :
    WriteRawString (WriteRawString l a) b = WriteRawString l (a ++ b) := by
  simp [WriteRawString]

theorem WriteRawString_nil (l : Logger) : WriteRawString l [] = l := by
  simp [WriteRawString]

@[simp] theorem WriteRawString_buf (l : Logger) (a : GoString) :
    (WriteRawString l a).buf = l.buf ++ a := rfl

@[simp] theorem WriteRawString_level (l : Logger) (a : GoString) :
    (WriteRawString l a).level = l.level := rfl

@[simp] theorem WriteRawString_enableColor (l : Logger) (a : GoString) :
    (WriteRawString l a).enableColor = l.enableColor := rfl

@[simp] theorem WriteRawString_name (l : Logger) (a : GoString) :
    (WriteRawString l a).name = l.name := rfl

@[simp] theorem WriteRawString_colorFile (l : Logger) (a : GoString) :
    (WriteRawString l a).colorFile = l.colorFile := rfl

@[simp] theorem WriteRawString_parts (l : Logger) (a : GoString) :
    (WriteRawString l a).parts = l.parts := rfl

@[simp] theorem WriteRawString_output (l : Logger) (a : GoString) :
    (WriteRawString l a).output = l.output := rfl

@[simp] theorem WriteRawString_currColor (l : Logger) (a : GoString) :
    (WriteRawString l a).currColor = l.currColor := rfl

@[simp] theorem WriteRawString_currLevel (l : Logger) (a : GoString) :
    (WriteRawString l a).currLevel = l.currLevel := rfl

@[simp] theorem WriteRawString_currText (l : Logger) (a : GoString) :
    (WriteRawString l a).currText = l.currText := rfl

theorem writeTimePart_eq (T : Tables) (sys : Sys) (l : Logger) (pr : Proc) (ms : Bool) :
    writeTimePart T sys (l, pr) ms =
      (WriteRawString l (writeTimePart T sys ({ l with buf := [] }, pr) ms).1.buf,
        (writeTimePart T sys ({ l with buf := [] }, pr) ms).2) := by
  cases ms <;>
    simp [writeTimePart, WriteRawByte_eq, itoa_eq, WriteRawString_twice]

theorem writeFilePart_eq (T : Tables) (sys : Sys) (l : Logger) (a b : Bool) :
    writeFilePart T sys l a b =
      WriteRawString l (writeFilePart T sys { l with buf := [] } a b).buf := by
  cases a <;> cases b <;>
    simp [writeFilePart, WriteRawByte_eq, itoa_eq, WriteRawString_twice, WriteRawString_nil]

/-- A part appends to the buffer a text that does not depend on the buffer, and changes
no other field of the logger. -/
theorem callPart_append (T : Tables) (sys : Sys) (p : PartFunc) (l : Logger) (pr : Proc) :
    callPart T sys p (l, pr) =
      (WriteRawString l (partText T sys p l pr), partProc T sys p l pr) := by
  cases p
  case logPart_ColorBegin =>
    simp only [callPart, partText, partProc, logPart_ColorBegin]
    split <;> simp [WriteRawString_nil]
  case logPart_ColorEnd =>
    simp only [callPart, partText, partProc, logPart_ColorEnd]
    split <;> simp [WriteRawString_nil]
  case LogPart_ShortFileName =>
    simp only [callPart, partText, partProc, LogPart_ShortFileName]
    rw [writeFilePart_eq]
  case LogPart_LongFileName =>
    simp only [callPart, partText, partProc, LogPart_LongFileName]
    rw [writeFilePart_eq]
  case LogPart_Level =>
    simp [callPart, partText, partProc, LogPart_Level, WriteRawByte_eq, WriteRawString_twice]
  case LogPart_Name =>
    simp only [callPart, partText, partProc, LogPart_Name]
    split <;> simp [WriteRawString_nil, WriteRawByte_eq, WriteRawString_twice]
  case LogPart_Pid =>
    simp [callPart, partText, partProc, LogPart_Pid, itoa_eq, WriteRawString_twice]
  case LogPart_Gid =>
    simp [callPart, partText, partProc, LogPart_Gid, itoa_eq, WriteRawString_twice]
  case logPart_Text =>
    simp [callPart, partText, partProc, logPart_Text]
  case logPart_Line =>
    simp only [callPart, partText, partProc, logPart_Line]
    split <;> simp [WriteRawString_nil, WriteRawByte_eq]
  case LogPart_Time =>
    simp only [callPart, partText, partProc, LogPart_Time]
    rw [writeTimePart_eq]
  case LogPart_TimeMS =>
    simp only [callPart, partText, partProc, LogPart_TimeMS]
    rw [writeTimePart_eq]

theorem runParts_nil (T : Tables) (sys : Sys) (st : Logger × Proc) :
    runParts T sys [] st = st := rfl

theorem runParts_cons (T : Tables) (sys : Sys) (p : PartFunc) (ps : List PartFunc)
    (st : Logger × Proc) :
    runParts T sys (p :: ps) st = runParts T sys ps (callPart T sys p st) := rfl

theorem runParts_concat (T : Tables) (sys : Sys) (ps qs : List PartFunc)
    (st : Logger × Proc) :
    runParts T sys (ps ++ qs) st = runParts T sys qs (runParts T sys ps st) := by
  simp [runParts, List.foldl_append]

theorem partText_WriteRawString (T : Tables) (sys : Sys) (p : PartFunc) (l : Logger)
    (a : GoString) (pr : Proc) :
    partText T sys p (WriteRawString l a) pr = partText T sys p l pr := rfl

theorem partProc_WriteRawString (T : Tables) (sys : Sys) (p : PartFunc) (l : Logger)
    (a : GoString) (pr : Proc) :
    partProc T sys p (WriteRawString l a) pr = partProc T sys p l pr := rfl

theorem partsText_WriteRawString (T : Tables) (sys : Sys) (ps : List PartFunc) (l : Logger)
    (a : GoString) (pr : Proc) :
    partsText T sys ps (WriteRawString l a) pr = partsText T sys ps l pr := rfl

theorem partsProc_WriteRawString (T : Tables) (sys : Sys) (ps : List PartFunc) (l : Logger)
    (a : GoString) (pr : Proc) :
    partsProc T sys ps (WriteRawString l a) pr = partsProc T sys ps l pr := rfl

/-- A list of parts appends to the buffer a text that does not depend on the buffer, and
changes no other field of the logger. -/
theorem runParts_append (T : Tables) (sys : Sys) (ps : List PartFunc) (l : Logger)
    (pr : Proc) :
    runParts T sys ps (l, pr) =
      (WriteRawString l (partsText T sys ps l pr), partsProc T sys ps l pr) := by
  induction ps generalizing l pr with
  | nil => simp [partsText, partsProc, runParts_nil, WriteRawString_nil]
  | cons p ps ih =>
    have h0 : partsText T sys (p :: ps) l pr =
        partText T sys p l pr ++ partsText T sys ps l (partProc T sys p l pr) := by
      unfold partsText
      rw [runParts_cons, callPart_append, ih]
      simp only [WriteRawString_buf, List.nil_append]
      rfl
    have h1 : partsProc T sys (p :: ps) l pr =
        partsProc T sys ps l (partProc T sys p l pr) := by
      unfold partsProc
      rw [runParts_cons, callPart_append, ih]
      rfl
    rw [runParts_cons, callPart_append, ih, h0, h1, WriteRawString_twice,
      partsText_WriteRawString, partsProc_WriteRawString]

theorem partsText_nil (T : Tables) (sys : Sys) (l : Logger) (pr : Proc) :
    partsText T sys [] l pr = [] := rfl

theorem partsProc_nil (T : Tables) (sys : Sys) (l : Logger) (pr : Proc) :
    partsProc T sys [] l pr = pr := rfl

theorem partsText_cons (T : Tables) (sys : Sys) (p : PartFunc) (ps : List PartFunc)
    (l : Logger) (pr : Proc) :
    partsText T sys (p :: ps) l pr =
      partText T sys p l pr ++ partsText T sys ps l (partProc T sys p l pr) := by
  unfold partsText
  rw [runParts_cons, callPart_append, runParts_append]
  simp only [WriteRawString_buf, List.nil_append]
  rfl

theorem partsProc_cons (T : Tables) (sys : Sys) (p : PartFunc) (ps : List PartFunc)
    (l : Logger) (pr : Proc) :
    partsProc T sys (p :: ps) l pr = partsProc T sys ps l (partProc T sys p l pr) := by
  unfold partsProc
  rw [runParts_cons, callPart_append, runParts_append]
  rfl

theorem partsText_concat (T : Tables) (sys : Sys) (ps qs : List PartFunc)
    (l : Logger) (pr : Proc) :
    partsText T sys (ps ++ qs) l pr =
      partsText T sys ps l pr ++ partsText T sys qs l (partsProc T sys ps l pr) := by
  induction ps generalizing pr with
  | nil => simp [partsText_nil, partsProc_nil]
  | cons p ps ih => simp [partsText_cons, partsProc_cons, ih]


/-! ## Closed forms of `Log` -/

theorem selectColorByText_frame (T : Tables) (l : Logger) :
    selectColorByText T l = { l with currColor := (selectColorByText T l).currColor } := by
  unfold selectColorByText
  split
  · split <;> rfl
  · rfl

theorem selectColorByLevel_frame (T : Tables) (l : Logger) :
    selectColorByLevel T l = { l with currColor := (selectColorByLevel T l).currColor } := by
  by_cases h : T.colorFromLevel l.currLevel = T.NoColor <;> simp [selectColorByLevel, h]

/-- The state the parts run on differs from the state at entry in the three call-state
fields and in the buffer only. -/
theorem Log.ready_frame (T : Tables) (l : Logger) (level : Level) (text : GoString) :
    Log.ready T l level text =
      { l with buf := [], currLevel := level, currText := text,
               currColor := (Log.ready T l level text).currColor } := by
  unfold Log.ready
  simp only []
  rw [selectColorByLevel_frame, selectColorByText_frame]

theorem Log_of_lt (T : Tables) (sys : Sys) (l : Logger) (pr : Proc) (level : Level)
    (text : GoString) (h : level < l.level) :
    Log T sys (l, pr) level text = ({ l with currLevel := level, currText := text }, pr) := by
  simp [Log, h]

theorem Log_of_not_lt (T : Tables) (sys : Sys) (l : Logger) (pr : Proc) (level : Level)
    (text : GoString) (h : ¬ level < l.level) :
    Log T sys (l, pr) level text =
      ({ l with buf := partsText T sys l.parts (Log.ready T l level text) pr,
                output := l.output ++ [partsText T sys l.parts (Log.ready T l level text) pr],
                currLevel := level, currText := text, currColor := T.NoColor },
        partsProc T sys l.parts (Log.ready T l level text) pr) := by
  have hr := Log.ready_frame T l level text
  have hp : (Log.ready T l level text).parts = l.parts := by rw [hr]
  have e : Log T sys (l, pr) level text =
      ({ (runParts T sys (Log.ready T l level text).parts (Log.ready T l level text, pr)).1 with
          output := (runParts T sys (Log.ready T l level text).parts
              (Log.ready T l level text, pr)).1.output ++
            [(runParts T sys (Log.ready T l level text).parts
              (Log.ready T l level text, pr)).1.buf],
          currColor := T.NoColor },
        (runParts T sys (Log.ready T l level text).parts (Log.ready T l level text, pr)).2) := by
    simp [Log, Log.ready, h]
  rw [e, hp, runParts_append]
  generalize partsText T sys l.parts (Log.ready T l level text) pr = w
  generalize partsProc T sys l.parts (Log.ready T l level text) pr = q
  rw [hr]
  simp [WriteRawString]


/-! ## `strings.Fields` -/

theorem fieldsFrom_eq_split (s cur : GoString) :
    fieldsFrom s cur =
      (((s.splitOnP isSpace).modifyHead (fun x => cur ++ x)).filter (fun v => !v.isEmpty)) := by
  induction s generalizing cur with
  | nil =>
    by_cases h : cur = [] <;> simp [fieldsFrom, List.splitOnP_nil, h]
  | cons r rest ih =>
    by_cases hr : isSpace r = true
    · have h0 := ih []
      simp only [List.nil_append] at h0
      have hid : (fun x : List Char => x) = id := rfl
      rw [hid, List.modifyHead_id] at h0
      by_cases h : cur = [] <;>
        simp [fieldsFrom, List.splitOnP_cons, hr, h, h0]
    · simp only [fieldsFrom, List.splitOnP_cons, hr, ih (cur ++ [r])]
      simp [List.modifyHead_modifyHead, Function.comp_def]

/-- The scan agrees with the specification wording of the split: the pieces between white
space characters that are not empty. -/
theorem Fields_eq_specSplit (s : GoString) : Fields s = specSplit s := by
  have h := fieldsFrom_eq_split s []
  have hid : (fun x : List Char => [] ++ x) = id := by funext x; simp
  rw [hid, List.modifyHead_id] at h
  exact h


/-! ## The pipeline builders -/

theorem SetPartsByString.step_eq (l : Logger) (v : GoString) :
    SetPartsByString.step l v = { l with parts := l.parts ++ (specDirective v).toList } := by
  unfold SetPartsByString.step specDirective
  repeat' split
  all_goals simp

theorem foldl_step_eq (toks : List GoString) (l : Logger) :
    toks.foldl SetPartsByString.step l =
      { l with parts := l.parts ++ toks.filterMap specDirective } := by
  induction toks generalizing l with
  | nil => simp
  | cons v vs ih =>
    rw [List.foldl_cons, ih, SetPartsByString.step_eq]
    cases h : specDirective v <;> simp [List.filterMap_cons, h]

/-- The directive builder leaves the pipeline framed around the parts of the recognized
tokens, and changes no other field. -/
theorem SetPartsByString_eq (l : Logger) (s : GoString) :
    SetPartsByString l s =
      { l with parts := [PartFunc.logPart_ColorBegin] ++ (Fields s).filterMap specDirective ++
          [PartFunc.logPart_Text, PartFunc.logPart_ColorEnd, PartFunc.logPart_Line] } := by
  unfold SetPartsByString
  simp only [foldl_step_eq]

theorem specDirective_isSome (v : GoString) :
    (specDirective v).isSome = decide (v ∈ recognizedTokens) := by
  unfold specDirective recognizedTokens
  repeat' split
  all_goals simp_all

/-! ## The text of the single parts -/

theorem partText_ColorBegin (T : Tables) (sys : Sys) (l : Logger) (pr : Proc) :
    partText T sys PartFunc.logPart_ColorBegin l pr =
      if l.enableColor && l.currColor != T.NoColor then T.logColorPrefix l.currColor
      else [] := by
  simp only [partText, callPart, logPart_ColorBegin]
  split <;> simp

theorem partText_ColorEnd (T : Tables) (sys : Sys) (l : Logger) (pr : Proc) :
    partText T sys PartFunc.logPart_ColorEnd l pr =
      if l.enableColor && l.currColor != T.NoColor then T.logColorSuffix else [] := by
  simp only [partText, callPart, logPart_ColorEnd]
  split <;> simp

theorem partText_Level (T : Tables) (sys : Sys) (l : Logger) (pr : Proc) :
    partText T sys PartFunc.LogPart_Level l pr = T.levelString l.currLevel ++ [' '] := by
  simp [partText, callPart, LogPart_Level, WriteRawByte_eq]

theorem partText_Name (T : Tables) (sys : Sys) (l : Logger) (pr : Proc) :
    partText T sys PartFunc.LogPart_Name l pr =
      if l.name = [] then [] else l.name ++ [' '] := by
  simp only [partText, callPart, LogPart_Name]
  by_cases h : l.name = [] <;> simp [h, WriteRawByte_eq]

theorem partText_Text (T : Tables) (sys : Sys) (l : Logger) (pr : Proc) :
    partText T sys PartFunc.logPart_Text l pr = l.currText := by
  simp [partText, callPart, logPart_Text]

theorem endsInNewline_iff (t : GoString) :
    endsInNewline t = true ↔ t.getLast? = some '\n' := by
  simp [endsInNewline]

theorem partText_Line (T : Tables) (sys : Sys) (l : Logger) (pr : Proc) :
    partText T sys PartFunc.logPart_Line l pr =
      if endsInNewline l.currText then [] else ['\n'] := by
  have hl : l.currText.get? (l.currText.length - 1) = l.currText.getLast? := by
    rw [List.getLast?_eq_getElem?, List.get?_eq_getElem?]
  simp only [partText, callPart, logPart_Line, hl]
  cases ht : l.currText with
  | nil => simp [endsInNewline, WriteRawByte_eq]
  | cons c cs =>
    by_cases h : endsInNewline (c :: cs) = true
    · have h2 := (endsInNewline_iff _).1 h
      simp [h, h2]
    · have h2 : ¬ (c :: cs).getLast? = some '\n' := fun e => h ((endsInNewline_iff _).2 e)
      simp [h, h2, WriteRawByte_eq]

theorem partProc_of_stateless (T : Tables) (sys : Sys) (p : PartFunc) (l : Logger)
    (pr : Proc) (hp : p ≠ PartFunc.LogPart_Gid) (ht : p ≠ PartFunc.LogPart_Time)
    (hm : p ≠ PartFunc.LogPart_TimeMS) :
    partProc T sys p l pr = pr := by
  cases p <;> first | rfl | contradiction

/-- The text written through a framed pipeline: colour begin, the configured parts, the
message, colour end, the terminator. -/
theorem partsText_framed (T : Tables) (sys : Sys) (f : List PartFunc) (l : Logger)
    (pr : Proc) :
    partsText T sys ([PartFunc.logPart_ColorBegin] ++ f ++
        [PartFunc.logPart_Text, PartFunc.logPart_ColorEnd, PartFunc.logPart_Line]) l pr =
      (if l.enableColor && l.currColor != T.NoColor then T.logColorPrefix l.currColor
        else []) ++
      partsText T sys f l pr ++ l.currText ++
      (if l.enableColor && l.currColor != T.NoColor then T.logColorSuffix else []) ++
      (if endsInNewline l.currText then [] else ['\n']) := by
  rw [List.append_assoc, List.singleton_append, partsText_cons, partsText_concat,
    partsText_cons, partsText_cons, partsText_cons, partsText_nil, partText_ColorBegin,
    partText_Text, partText_ColorEnd, partText_Line,
    partProc_of_stateless T sys PartFunc.logPart_ColorBegin l pr (by decide) (by decide)
      (by decide)]
  simp only [List.append_assoc, List.append_nil]

theorem Log.ready_currLevel (T : Tables) (l : Logger) (s : Level) (t : GoString) :
    (Log.ready T l s t).currLevel = s := by
  rw [Log.ready_frame]

theorem Log.ready_currText (T : Tables) (l : Logger) (s : Level) (t : GoString) :
    (Log.ready T l s t).currText = t := by
  rw [Log.ready_frame]

theorem Log.ready_name (T : Tables) (l : Logger) (s : Level) (t : GoString) :
    (Log.ready T l s t).name = l.name := by
  rw [Log.ready_frame]

theorem Log.ready_enableColor (T : Tables) (l : Logger) (s : Level) (t : GoString) :
    (Log.ready T l s t).enableColor = l.enableColor := by
  rw [Log.ready_frame]

/-- The bytes an unfiltered call writes through a framed pipeline. -/
theorem Log_framed_output (T : Tables) (sys : Sys) (l : Logger) (pr : Proc) (s : Level)
    (t : GoString) (f : List PartFunc) (h : ¬ s < l.level)
    (hf : l.parts = [PartFunc.logPart_ColorBegin] ++ f ++
        [PartFunc.logPart_Text, PartFunc.logPart_ColorEnd, PartFunc.logPart_Line]) :
    (Log T sys (l, pr) s t).1.output = l.output ++
      [(if Log.colorActive T l s t then T.logColorPrefix (Log.ready T l s t).currColor
          else []) ++
        partsText T sys f (Log.ready T l s t) pr ++ t ++
        (if Log.colorActive T l s t then T.logColorSuffix else []) ++
        (if endsInNewline t then [] else ['\n'])] := by
  rw [Log_of_not_lt T sys l pr s t h, hf, partsText_framed, Log.ready_currText]
  rfl

/-! ## Claims -/

/-- C1. Level filtering in `Log`: a call whose severity is below the threshold hands
nothing to the writer, and a call whose severity is at or above the threshold hands it
exactly one byte string, the buffer it has built. -/
theorem C1_Log_level_filtering (T : Tables) (sys : Sys) (l : Logger) (pr : Proc)
    (s : Level) (t : GoString) :
    (Log T sys (l, pr) s t).1.output =
        (if s < l.level then l.output else l.output ++ [(Log T sys (l, pr) s t).1.buf]) ∧
      (Log T sys (l, pr) s t).1.output.length =
        l.output.length + (if s < l.level then 0 else 1) := by
  by_cases h : s < l.level
  · simp [Log_of_lt T sys l pr s t h, h]
  · simp [Log_of_not_lt T sys l pr s t h, h]

/-- C2. `SetParts` framing: whatever the pipeline was before, after `SetParts(f...)` it is
`logPart_ColorBegin`, then the supplied parts in their order, then `logPart_Text`,
`logPart_ColorEnd`, `logPart_Line`. -/
theorem C2_SetParts_framing (l : Logger) (f : List PartFunc) :
    (SetParts l f).parts =
      [PartFunc.logPart_ColorBegin] ++ f ++
        [PartFunc.logPart_Text, PartFunc.logPart_ColorEnd, PartFunc.logPart_Line] := by
  rfl

/-- C3. `SetPartsByString` mapping: after `SetPartsByString(s)` the pipeline is
`logPart_ColorBegin`, then the parts `M` of the recognized tokens of `s` split on white
space, in order, then `logPart_Text`, `logPart_ColorEnd`, `logPart_Line`; `M` has one part
for each occurrence of a recognized token. -/
theorem C3_SetPartsByString_mapping (l : Logger) (s : GoString) :
    (SetPartsByString l s).parts =
        [PartFunc.logPart_ColorBegin] ++ (specSplit s).filterMap specDirective ++
          [PartFunc.logPart_Text, PartFunc.logPart_ColorEnd, PartFunc.logPart_Line] ∧
      ((specSplit s).filterMap specDirective).length =
        (specSplit s).countP (fun v => decide (v ∈ recognizedTokens)) := by
  constructor
  · rw [SetPartsByString_eq, Fields_eq_specSplit]
  · induction specSplit s with
    | nil => rfl
    | cons v vs ih =>
      have h := specDirective_isSome v
      by_cases hv : v ∈ recognizedTokens
      · rw [List.countP_cons_of_pos _ _ (by simpa using hv)]
        cases hd : specDirective v with
        | none => simp [hd, hv] at h
        | some p => simp [List.filterMap_cons, hd, ih]
      · rw [List.countP_cons_of_neg _ _ (by simpa using hv)]
        cases hd : specDirective v with
        | none => simp [List.filterMap_cons, hd, ih]
        | some p => simp [hd, hv] at h

/-- C4. Byte-exact output of the `%L %N` pipeline: on a logger configured with
`SetPartsByString("%L %N")`, for a severity that passes the filter, a text that does not
end in a newline and no active colour, `Log` writes the level string, a space, the name
and a space, the text and a newline when the name is not empty, and the level string, a
space, the text and a newline when the name is empty. -/
theorem C4_level_name_output (T : Tables) (sys : Sys) (l0 l : Logger) (pr : Proc)
    (s : Level) (t : GoString)
    (hl : l = SetPartsByString l0 "%L %N".data)
    (hpass : ¬ s < l.level)
    (ht : endsInNewline t = false)
    (hc : Log.colorActive T l s t = false) :
    (l.name ≠ [] → (Log T sys (l, pr) s t).1.output =
        l.output ++ [T.levelString s ++ " ".data ++ l.name ++ " ".data ++ t ++ "\n".data]) ∧
    (l.name = [] → (Log T sys (l, pr) s t).1.output =
        l.output ++ [T.levelString s ++ " ".data ++ t ++ "\n".data]) := by
  have hf : l.parts = [PartFunc.logPart_ColorBegin] ++
      [PartFunc.LogPart_Level, PartFunc.LogPart_Name] ++
      [PartFunc.logPart_Text, PartFunc.logPart_ColorEnd, PartFunc.logPart_Line] := by
    rw [hl, SetPartsByString_eq]
    rfl
  have hw := Log_framed_output T sys l pr s t _ hpass hf
  rw [hc, ht, partsText_cons, partsText_cons, partsText_nil, partText_Level, partText_Name,
    Log.ready_currLevel, Log.ready_name] at hw
  constructor
  · intro hn
    rw [hw]
    simp [hn]
  · intro hn
    rw [hw]
    simp [hn]

/-- Witness of C4: the logger named `svc`, severity Info, text `hi`. -/
theorem C4_level_name_output_witness :
    (Log sampleTables sampleSys (SetPartsByString sampleLogger "%L %N".data, sampleProc)
      Level_Info "hi".data).1.output = ["INFO svc hi\n".data] ∧
    (Log sampleTables sampleSys
      (SetPartsByString { sampleLogger with name := [] } "%L %N".data, sampleProc)
      Level_Info "hi".data).1.output = ["INFO hi\n".data] :=
  ⟨(C4_level_name_output sampleTables sampleSys sampleLogger
      (SetPartsByString sampleLogger "%L %N".data) sampleProc Level_Info "hi".data rfl
      (by decide) (by decide) (by decide)).1 (by decide),
   (C4_level_name_output sampleTables sampleSys { sampleLogger with name := [] }
      (SetPartsByString { sampleLogger with name := [] } "%L %N".data) sampleProc
      Level_Info "hi".data rfl (by decide) (by decide) (by decide)).2 (by decide)⟩

/-- With a colour active and a text that ends in a newline, the terminator part adds
nothing and the bytes written end with the colour suffix, which follows the newline of
the text. -/
theorem Log_suffix_after_newline (T : Tables) (sys : Sys) (l : Logger) (pr : Proc)
    (s : Level) (t : GoString) (f : List PartFunc) (h : ¬ s < l.level)
    (hf : l.parts = [PartFunc.logPart_ColorBegin] ++ f ++
        [PartFunc.logPart_Text, PartFunc.logPart_ColorEnd, PartFunc.logPart_Line])
    (hc : Log.colorActive T l s t = true) (ht : endsInNewline t = true) :
    (Log T sys (l, pr) s t).1.output = l.output ++
      [T.logColorPrefix (Log.ready T l s t).currColor ++
        partsText T sys f (Log.ready T l s t) pr ++ t ++ T.logColorSuffix] := by
  rw [Log_framed_output T sys l pr s t f h hf, hc, ht]
  simp

/-- C5, evaluated where it fails: colouring enabled, the `%L %N` pipeline, severity Error
(which has a colour) and the text `hi` followed by a newline, as `Errorln("hi")` passes it.
The bytes written are the colour escape, `ERROR svc hi`, the newline and then the reset
escape: they do not end in a newline, and the reset follows the newline of the message. -/
theorem C5_reset_follows_message_newline :
    (Log sampleTables sampleSys
        (SetPartsByString (EnableColor sampleLogger true) "%L %N".data, sampleProc)
        Level_Error "hi\n".data).1.output =
      [[Char.ofNat 27] ++ "[031mERROR svc hi\n".data ++ [Char.ofNat 27] ++ "[0m".data] ∧
    endsInNewline
      ((Log sampleTables sampleSys
        (SetPartsByString (EnableColor sampleLogger true) "%L %N".data, sampleProc)
        Level_Error "hi\n".data).1.buf) = false := by
  decide

/-! ## Exported parts read the name and the severity only -/

theorem partText_exported_congr (T : Tables) (sys : Sys) (p : PartFunc) (l1 l2 : Logger)
    (pr : Proc) (hp : p.exported = true) (hn : l1.name = l2.name)
    (hl : l1.currLevel = l2.currLevel) :
    partText T sys p l1 pr = partText T sys p l2 pr ∧
      partProc T sys p l1 pr = partProc T sys p l2 pr := by
  cases p
  case logPart_ColorBegin => simp [PartFunc.exported] at hp
  case logPart_ColorEnd => simp [PartFunc.exported] at hp
  case logPart_Text => simp [PartFunc.exported] at hp
  case logPart_Line => simp [PartFunc.exported] at hp
  case LogPart_ShortFileName =>
    simp [partText, partProc, callPart, LogPart_ShortFileName, writeFilePart,
      WriteRawByte_eq, itoa_eq]
  case LogPart_LongFileName =>
    simp [partText, partProc, callPart, LogPart_LongFileName, writeFilePart,
      WriteRawByte_eq, itoa_eq]
  case LogPart_Level =>
    simp [partText, partProc, callPart, LogPart_Level, WriteRawByte_eq, hl]
  case LogPart_Name =>
    rw [partText_Name, partText_Name, hn]
    exact ⟨rfl, rfl⟩
  case LogPart_Pid =>
    simp [partText, partProc, callPart, LogPart_Pid, itoa_eq]
  case LogPart_Gid =>
    simp [partText, partProc, callPart, LogPart_Gid, itoa_eq]
  case LogPart_Time =>
    simp [partText, partProc, callPart, LogPart_Time, writeTimePart, WriteRawByte_eq,
      itoa_eq]
  case LogPart_TimeMS =>
    simp [partText, partProc, callPart, LogPart_TimeMS, writeTimePart, WriteRawByte_eq,
      itoa_eq]

theorem partsText_exported_congr (T : Tables) (sys : Sys) (f : List PartFunc)
    (l1 l2 : Logger) (pr : Proc) (hx : ∀ p ∈ f, p.exported = true)
    (hn : l1.name = l2.name) (hl : l1.currLevel = l2.currLevel) :
    partsText T sys f l1 pr = partsText T sys f l2 pr ∧
      partsProc T sys f l1 pr = partsProc T sys f l2 pr := by
  induction f generalizing pr with
  | nil => exact ⟨rfl, rfl⟩
  | cons p ps ih =>
    have h1 := partText_exported_congr T sys p l1 l2 pr (hx p (List.mem_cons_self p ps)) hn hl
    have hx2 : ∀ q ∈ ps, q.exported = true := fun q hq => hx q (List.mem_cons_of_mem p hq)
    have h2 := ih (partProc T sys p l2 pr) hx2
    rw [partsText_cons, partsText_cons, partsProc_cons, partsProc_cons, h1.1, h1.2]
    exact ⟨by rw [h2.1], h2.2⟩

theorem partText_exported_last (T : Tables) (sys : Sys) (p : PartFunc) (l : Logger)
    (pr : Proc) (hp : p.exported = true) :
    endsInNewline (partText T sys p l pr) = false := by
  cases p
  case logPart_ColorBegin => simp [PartFunc.exported] at hp
  case logPart_ColorEnd => simp [PartFunc.exported] at hp
  case logPart_Text => simp [PartFunc.exported] at hp
  case logPart_Line => simp [PartFunc.exported] at hp
  case LogPart_ShortFileName =>
    simp [endsInNewline, List.getLast?_cons, partText, callPart, LogPart_ShortFileName, writeFilePart,
      WriteRawByte_eq, itoa_eq]
  case LogPart_LongFileName =>
    simp [endsInNewline, List.getLast?_cons, partText, callPart, LogPart_LongFileName, writeFilePart,
      WriteRawByte_eq, itoa_eq]
  case LogPart_Level =>
    simp [endsInNewline, List.getLast?_cons, partText, callPart, LogPart_Level, WriteRawByte_eq]
  case LogPart_Name =>
    rw [partText_Name]
    split <;> simp [endsInNewline]
  case LogPart_Pid =>
    simp [endsInNewline, List.getLast?_cons, partText, callPart, LogPart_Pid, itoa_eq]
  case LogPart_Gid =>
    simp [endsInNewline, List.getLast?_cons, partText, callPart, LogPart_Gid, itoa_eq]
  case LogPart_Time =>
    simp [endsInNewline, List.getLast?_cons, partText, callPart, LogPart_Time, writeTimePart, WriteRawByte_eq,
      itoa_eq]
  case LogPart_TimeMS =>
    simp [endsInNewline, List.getLast?_cons, partText, callPart, LogPart_TimeMS, writeTimePart, WriteRawByte_eq,
      itoa_eq]

theorem endsInNewline_append (a b : GoString) (ha : endsInNewline a = false)
    (hb : endsInNewline b = false) : endsInNewline (a ++ b) = false := by
  cases hbl : b.getLast? with
  | none =>
    have : b = [] := List.getLast?_eq_none_iff.1 hbl
    simpa [this] using ha
  | some c =>
    simp [endsInNewline, List.getLast?_append, hbl] at hb ⊢
    exact hb

theorem partsText_exported_last (T : Tables) (sys : Sys) (f : List PartFunc) (l : Logger)
    (pr : Proc) (hx : ∀ p ∈ f, p.exported = true) :
    endsInNewline (partsText T sys f l pr) = false := by
  induction f generalizing pr with
  | nil => rfl
  | cons p ps ih =>
    rw [partsText_cons]
    exact endsInNewline_append _ _
      (partText_exported_last T sys p l pr (hx p (List.mem_cons_self p ps)))
      (ih _ (fun q hq => hx q (List.mem_cons_of_mem p hq)))

theorem logPart_Line_eq (g : Logger) :
    logPart_Line g = if endsInNewline g.currText then g else WriteRawByte g '\n' := by
  have hl : g.currText.get? (g.currText.length - 1) = g.currText.getLast? := by
    rw [List.getLast?_eq_getElem?, List.get?_eq_getElem?]
  simp only [logPart_Line, hl]
  cases ht : g.currText with
  | nil => simp [endsInNewline]
  | cons c cs =>
    by_cases h : endsInNewline (c :: cs) = true
    · have h2 := (endsInNewline_iff _).1 h
      simp [h, h2]
    · have h2 : ¬ (c :: cs).getLast? = some '\n' := fun e => h ((endsInNewline_iff _).2 e)
      simp [h, h2]

/-- C6. Line-terminator round trip: `logPart_Line` appends one newline when the text is
empty or does not end in a newline and nothing when it ends in one; hence, through a
pipeline framed around exported parts and with no colour active, a text `t` that does not
end in a newline and the text `t` followed by a newline make `Log` write the same bytes,
which end in one newline that no other newline precedes. -/
theorem C6_line_terminator_round_trip (T : Tables) (sys : Sys) (l : Logger) (pr : Proc)
    (s : Level) (t : GoString) (f : List PartFunc)
    (hf : l.parts = [PartFunc.logPart_ColorBegin] ++ f ++
        [PartFunc.logPart_Text, PartFunc.logPart_ColorEnd, PartFunc.logPart_Line])
    (hx : ∀ p ∈ f, p.exported = true)
    (hpass : ¬ s < l.level)
    (ht : endsInNewline t = false)
    (hc1 : Log.colorActive T l s t = false)
    (hc2 : Log.colorActive T l s (t ++ "\n".data) = false) :
    (∀ g : Logger, logPart_Line g =
        if g.currText = [] ∨ g.currText.getLast? ≠ some '\n' then WriteRawByte g '\n'
        else g) ∧
    (Log T sys (l, pr) s (t ++ "\n".data)).1.output = (Log T sys (l, pr) s t).1.output ∧
    ∃ w, (Log T sys (l, pr) s t).1.output = l.output ++ [w ++ "\n".data] ∧
      endsInNewline w = false := by
  have e1 := Log_framed_output T sys l pr s t f hpass hf
  have e2 := Log_framed_output T sys l pr s (t ++ "\n".data) f hpass hf
  have ht2 : endsInNewline (t ++ "\n".data) = true := by
    simp [endsInNewline]
  have hcg := partsText_exported_congr T sys f (Log.ready T l s (t ++ "\n".data))
    (Log.ready T l s t) pr hx
    (by rw [Log.ready_name, Log.ready_name])
    (by rw [Log.ready_currLevel, Log.ready_currLevel])
  rw [hc1, ht] at e1
  rw [hc2, ht2, hcg.1] at e2
  refine ⟨?_, ?_, ?_⟩
  · intro g
    rw [logPart_Line_eq]
    by_cases h : endsInNewline g.currText = true
    · have h2 := (endsInNewline_iff _).1 h
      have h3 : g.currText ≠ [] := by
        intro e
        rw [e] at h2
        simp at h2
      simp [h, h2, h3]
    · have h2 : ¬ g.currText.getLast? = some '\n' := fun e => h ((endsInNewline_iff _).2 e)
      simp [h, h2]
  · rw [e1, e2]
    simp
  · refine ⟨partsText T sys f (Log.ready T l s t) pr ++ t, ?_, ?_⟩
    · rw [e1]
      simp
    · exact endsInNewline_append _ _ (partsText_exported_last T sys f _ pr hx) ht

/-- Witness of C6: the texts `abc` and `abc` followed by a newline, through the `%L %N %t`
pipeline. -/
theorem C6_line_terminator_round_trip_witness :
    (Log sampleTables sampleSys (SetPartsByString sampleLogger "%L %N %t".data, sampleProc)
        Level_Info "abc\n".data).1.output =
      (Log sampleTables sampleSys (SetPartsByString sampleLogger "%L %N %t".data, sampleProc)
        Level_Info "abc".data).1.output ∧
    (Log sampleTables sampleSys (SetPartsByString sampleLogger "%L %N %t".data, sampleProc)
        Level_Info "abc".data).1.output = ["INFO svc 2024/01/02 03:04:05 abc\n".data] :=
  ⟨(C6_line_terminator_round_trip sampleTables sampleSys
      (SetPartsByString sampleLogger "%L %N %t".data) sampleProc Level_Info "abc".data
      [PartFunc.LogPart_Level, PartFunc.LogPart_Name, PartFunc.LogPart_Time]
      (by decide) (by decide) (by decide) (by decide) (by decide) (by decide)).2.1,
    by decide⟩

/-! ## Colour selection -/

theorem runParts_currColor (T : Tables) (sys : Sys) (ps : List PartFunc) (l : Logger)
    (pr : Proc) : (runParts T sys ps (l, pr)).1.currColor = l.currColor := by
  rw [runParts_append]
  rfl

theorem Log_output_runParts (T : Tables) (sys : Sys) (l : Logger) (pr : Proc) (s : Level)
    (t : GoString) (h : ¬ s < l.level) :
    (Log T sys (l, pr) s t).1.output =
      l.output ++ [(runParts T sys l.parts (Log.ready T l s t, pr)).1.buf] := by
  rw [Log_of_not_lt T sys l pr s t h, runParts_append]
  have hb : (Log.ready T l s t).buf = [] := by rw [Log.ready_frame]
  simp [hb]

/-- C7. Colour precedence in `Log`: with colouring enabled, a matcher attached and no
colour chosen at entry, the colour of the state on which the parts run is the colour of
the severity when that is not `NoColor`, and the colour the matcher gives the text
otherwise; no part changes it, and the bytes written are the buffer those parts build. -/
theorem C7_color_precedence (T : Tables) (sys : Sys) (l : Logger) (pr : Proc) (s : Level)
    (t : GoString) (m : ColorFile)
    (he : l.enableColor = true) (hm : l.colorFile = some m) (hn : l.currColor = T.NoColor)
    (hpass : ¬ s < l.level) :
    (Log.ready T l s t).currColor =
        (if T.colorFromLevel s ≠ T.NoColor then T.colorFromLevel s
          else m.ColorFromText t) ∧
    (∀ n : Nat, (runParts T sys (l.parts.take n) (Log.ready T l s t, pr)).1.currColor =
        (Log.ready T l s t).currColor) ∧
    (Log T sys (l, pr) s t).1.output =
      l.output ++ [(runParts T sys l.parts (Log.ready T l s t, pr)).1.buf] := by
  refine ⟨?_, fun n => runParts_currColor T sys _ _ pr, Log_output_runParts T sys l pr s t hpass⟩
  by_cases hc : T.colorFromLevel s = T.NoColor
  · simp [Log.ready, selectColorByLevel, selectColorByText, hm, he, hn, hc]
  · simp [Log.ready, selectColorByLevel, selectColorByText, hm, he, hn, hc]

/-- Witness of C7: the matcher gives `oops` colour 5; Error has colour 2 and wins; Info
has no colour and the colour of the matcher applies. -/
theorem C7_color_precedence_witness :
    (Log.ready sampleTables colorLogger Level_Error "oops".data).currColor = 2 ∧
    (Log.ready sampleTables colorLogger Level_Info "oops".data).currColor = 5 :=
  ⟨(C7_color_precedence sampleTables sampleSys colorLogger sampleProc Level_Error
      "oops".data { ColorFromText := fun t => if t = "oops".data then 5 else 0 }
      rfl rfl rfl (by decide)).1,
   (C7_color_precedence sampleTables sampleSys colorLogger sampleProc Level_Info
      "oops".data { ColorFromText := fun t => if t = "oops".data then 5 else 0 }
      rfl rfl rfl (by decide)).1⟩

/-! ## Buffer reuse -/

theorem Log.ready_buf_irrelevant (T : Tables) (l : Logger) (b : GoString) (s : Level)
    (t : GoString) : Log.ready T { l with buf := b } s t = Log.ready T l s t := by
  cases hm : l.colorFile <;>
    by_cases hc : T.colorFromLevel s = T.NoColor <;>
    by_cases he : (l.enableColor && l.currColor == T.NoColor) = true <;>
    simp [Log.ready, selectColorByLevel, selectColorByText, hm, hc, he]

theorem Log_buf_irrelevant (T : Tables) (sys : Sys) (l : Logger) (pr : Proc) (b : GoString)
    (s : Level) (t : GoString) (h : ¬ s < l.level) :
    Log T sys ({ l with buf := b }, pr) s t = Log T sys (l, pr) s t := by
  rw [Log_of_not_lt T sys { l with buf := b } pr s t h, Log_of_not_lt T sys l pr s t h,
    Log.ready_buf_irrelevant]

theorem Log_level (T : Tables) (sys : Sys) (l : Logger) (pr : Proc) (s : Level)
    (t : GoString) : (Log T sys (l, pr) s t).1.level = l.level := by
  by_cases h : s < l.level
  · rw [Log_of_lt T sys l pr s t h]
  · rw [Log_of_not_lt T sys l pr s t h]

theorem logSeq_buf_irrelevant (T : Tables) (sys : Sys) (calls : List (Level × GoString))
    (l : Logger) (pr : Proc) (b : GoString) :
    (logSeq T sys ({ l with buf := b }, pr) calls).1.output =
      (logSeq T sys (l, pr) calls).1.output := by
  induction calls generalizing l pr with
  | nil => rfl
  | cons c cs ih =>
    simp only [logSeq, List.foldl_cons] at ih ⊢
    by_cases h : c.1 < l.level
    · rw [Log_of_lt T sys { l with buf := b } pr c.1 c.2 h, Log_of_lt T sys l pr c.1 c.2 h]
      exact ih { l with currLevel := c.1, currText := c.2 } pr
    · rw [Log_buf_irrelevant T sys l pr b c.1 c.2 h]

theorem logSeq_unfiltered_length (T : Tables) (sys : Sys) (calls : List (Level × GoString))
    (l : Logger) (pr : Proc) (h : ∀ c ∈ calls, ¬ c.1 < l.level) :
    (logSeq T sys (l, pr) calls).1.output.length = l.output.length + calls.length := by
  induction calls generalizing l pr with
  | nil => rfl
  | cons c cs ih =>
    have hc : ¬ c.1 < l.level := h c (List.mem_cons_self c cs)
    have hl := Log_level T sys l pr c.1 c.2
    have h2 : ∀ d ∈ cs, ¬ d.1 < (Log T sys (l, pr) c.1 c.2).1.level := by
      intro d hd
      rw [hl]
      exact h d (List.mem_cons_of_mem c hd)
    have e := ih (Log T sys (l, pr) c.1 c.2).1 (Log T sys (l, pr) c.1 c.2).2 h2
    simp only [logSeq, List.foldl_cons] at e ⊢
    rw [e, Log_of_not_lt T sys l pr c.1 c.2 hc]
    simp
    omega

/-- C8. Buffer reuse does not leak between calls: what `Log` writes does not depend on
the contents of `buf` at entry, for one call and for any sequence of calls; an unfiltered
call writes exactly the buffer that the same call builds on a logger whose buffer is
empty; and a sequence of unfiltered calls makes one write for each call. -/
theorem C8_buffer_reuse_no_leak (T : Tables) (sys : Sys) (l : Logger) (pr : Proc)
    (b : GoString) (s : Level) (t : GoString) (calls : List (Level × GoString)) :
    (Log T sys ({ l with buf := b }, pr) s t).1.output = (Log T sys (l, pr) s t).1.output ∧
    (logSeq T sys ({ l with buf := b }, pr) calls).1.output =
      (logSeq T sys (l, pr) calls).1.output ∧
    (¬ s < l.level → (Log T sys ({ l with buf := b }, pr) s t).1.output =
      l.output ++ [(Log T sys ({ l with buf := [] }, pr) s t).1.buf]) ∧
    ((∀ c ∈ calls, ¬ c.1 < l.level) →
      (logSeq T sys ({ l with buf := b }, pr) calls).1.output.length =
        l.output.length + calls.length) := by
  refine ⟨?_, logSeq_buf_irrelevant T sys calls l pr b, ?_, ?_⟩
  · have h := logSeq_buf_irrelevant T sys [(s, t)] l pr b
    simpa [logSeq] using h
  · intro h
    rw [Log_buf_irrelevant T sys l pr b s t h, ← Log_buf_irrelevant T sys l pr [] s t h,
      Log_of_not_lt T sys { l with buf := [] } pr s t h]
  · intro h
    rw [logSeq_buf_irrelevant, logSeq_unfiltered_length T sys calls l pr h]

/-- Witness of C8: a long line, a short line and a long line again, on a logger whose
buffer holds stale bytes, give three independent lines. -/
theorem C8_buffer_reuse_no_leak_witness :
    (logSeq sampleTables sampleSys (SetPartsByString sampleLogger "%L".data, sampleProc)
      [(Level_Info, "a long first message".data), (Level_Warn, "x".data),
        (Level_Error, "a long third message".data)]).1.output =
    (logSeq sampleTables sampleSys
      ({ SetPartsByString sampleLogger "%L".data with buf := [] }, sampleProc)
      [(Level_Info, "a long first message".data), (Level_Warn, "x".data),
        (Level_Error, "a long third message".data)]).1.output ∧
    (logSeq sampleTables sampleSys (SetPartsByString sampleLogger "%L".data, sampleProc)
      [(Level_Info, "a long first message".data), (Level_Warn, "x".data),
        (Level_Error, "a long third message".data)]).1.output =
      ["INFO a long first message\n".data, "WARN x\n".data,
        "ERROR a long third message\n".data] :=
  ⟨(C8_buffer_reuse_no_leak sampleTables sampleSys
      { SetPartsByString sampleLogger "%L".data with buf := [] } sampleProc "stale".data
      Level_Info [] [(Level_Info, "a long first message".data), (Level_Warn, "x".data),
        (Level_Error, "a long third message".data)]).2.1,
    by decide⟩

/-! ## Directive strings -/

theorem fieldsFrom_space (a rest cur : GoString) (c : Char) (hc : isSpace c = true) :
    fieldsFrom (a ++ c :: rest) cur = fieldsFrom a cur ++ fieldsFrom rest [] := by
  induction a generalizing cur with
  | nil =>
    by_cases h : cur = [] <;> simp [fieldsFrom, hc, h]
  | cons r rs ih =>
    by_cases hr : isSpace r = true
    · by_cases h : cur = [] <;> simp [fieldsFrom, hr, h, ih]
    · simp [fieldsFrom, hr, ih]

theorem fieldsFrom_token (q rest cur : GoString) (hq : ∀ c ∈ q, isSpace c = false) :
    fieldsFrom (q ++ rest) cur = fieldsFrom rest (cur ++ q) := by
  induction q generalizing cur with
  | nil => simp
  | cons r rs ih =>
    have hr : isSpace r = false := hq r (List.mem_cons_self r rs)
    have hrs : ∀ c ∈ rs, isSpace c = false := fun c hc => hq c (List.mem_cons_of_mem r hc)
    simp [fieldsFrom, hr, ih _ hrs]

/-- The fields of `a`, a space, a token without white space, a space, `b`. -/
theorem Fields_with_token (a q b : GoString) (hq : ∀ c ∈ q, isSpace c = false) :
    Fields (a ++ " ".data ++ q ++ " ".data ++ b) =
      Fields a ++ (if q = [] then [] else [q]) ++ Fields b := by
  have hs : isSpace ' ' = true := by decide
  have e : a ++ " ".data ++ q ++ " ".data ++ b = a ++ ' ' :: (q ++ ' ' :: b) := by simp
  rw [e]
  unfold Fields
  rw [fieldsFrom_space a _ [] ' ' hs, fieldsFrom_token q _ [] hq]
  by_cases h : q = [] <;> simp [fieldsFrom, hs, h]

theorem Fields_without_token (a b : GoString) :
    Fields (a ++ " ".data ++ b) = Fields a ++ Fields b := by
  have hs : isSpace ' ' = true := by decide
  have e : a ++ " ".data ++ b = a ++ ' ' :: b := by simp
  rw [e]
  unfold Fields
  rw [fieldsFrom_space a _ [] ' ' hs]

theorem specDirective_of_not_recognized (q : GoString) (h : q ∉ recognizedTokens) :
    specDirective q = none := by
  have h1 := specDirective_isSome q
  cases hd : specDirective q with
  | none => rfl
  | some p => simp [hd, h] at h1

/-- C9. Unrecognized directive tokens are dropped: for directive strings `a` and `b` and
a token `q` without white space that is none of the eight recognized tokens,
`SetPartsByString` of `a`, a space, `q`, a space, `b` gives the same logger, and so the
same pipeline, as `SetPartsByString` of `a`, a space, `b`; the function has no error
result. -/
theorem C9_unrecognized_token_dropped (l : Logger) (a b q : GoString)
    (hq : ∀ c ∈ q, isSpace c = false) (hr : q ∉ recognizedTokens) :
    SetPartsByString l (a ++ " ".data ++ q ++ " ".data ++ b) =
      SetPartsByString l (a ++ " ".data ++ b) := by
  rw [SetPartsByString_eq, SetPartsByString_eq, Fields_with_token a q b hq,
    Fields_without_token]
  have hn := specDirective_of_not_recognized q hr
  by_cases h : q = [] <;> simp [h, hn, List.filterMap_append]

/-- Witness of C9: the tokens `%Q` and `%L%N` between `%L` and `%N`. -/
theorem C9_unrecognized_token_dropped_witness :
    (SetPartsByString sampleLogger "%L %Q %N".data).parts =
      (SetPartsByString sampleLogger "%L %N".data).parts ∧
    (SetPartsByString sampleLogger "%L %L%N %N".data).parts =
      (SetPartsByString sampleLogger "%L %N".data).parts :=
  ⟨congrArg Logger.parts (C9_unrecognized_token_dropped sampleLogger "%L".data "%N".data
      "%Q".data (by decide) (by decide)),
   congrArg Logger.parts (C9_unrecognized_token_dropped sampleLogger "%L".data "%N".data
      "%L%N".data (by decide) (by decide))⟩

theorem Fields_of_spaces (ds : GoString) (h : ∀ c ∈ ds, isSpace c = true) :
    Fields ds = [] := by
  unfold Fields
  induction ds with
  | nil => rfl
  | cons r rs ih =>
    have hr : isSpace r = true := h r (List.mem_cons_self r rs)
    simp [fieldsFrom, hr, ih (fun c hc => h c (List.mem_cons_of_mem r hc))]

theorem filterMap_specDirective_of_none (toks : List GoString)
    (h : ∀ v ∈ toks, v ∉ recognizedTokens) : toks.filterMap specDirective = [] := by
  induction toks with
  | nil => rfl
  | cons v vs ih =>
    rw [List.filterMap_cons,
      specDirective_of_not_recognized v (h v (List.mem_cons_self v vs))]
    exact ih (fun w hw => h w (List.mem_cons_of_mem v hw))

/-- C10. Degenerate directive strings: when the directive string is empty, or holds only
white space, or all its tokens are unrecognized, `SetPartsByString` leaves the pipeline
`logPart_ColorBegin`, `logPart_Text`, `logPart_ColorEnd`, `logPart_Line`, and an
unfiltered `Log` of a text with no colour active writes the text, followed by a newline
unless the text ends in one. -/
theorem C10_degenerate_directive (T : Tables) (sys : Sys) (l0 l : Logger) (pr : Proc)
    (s : Level) (t ds : GoString)
    (hs : ds = [] ∨ (∀ c ∈ ds, isSpace c = true) ∨
      (∀ v ∈ specSplit ds, v ∉ recognizedTokens))
    (hl : l = SetPartsByString l0 ds) :
    l.parts = [PartFunc.logPart_ColorBegin, PartFunc.logPart_Text,
        PartFunc.logPart_ColorEnd, PartFunc.logPart_Line] ∧
    (¬ s < l.level → Log.colorActive T l s t = false →
      (Log T sys (l, pr) s t).1.output =
        l.output ++ [t ++ (if endsInNewline t then [] else "\n".data)]) := by
  have hnone : ∀ v ∈ Fields ds, v ∉ recognizedTokens := by
    rcases hs with h | h | h
    · rw [h]
      intro v hv
      simp [Fields, fieldsFrom] at hv
    · rw [Fields_of_spaces ds h]
      intro v hv
      simp at hv
    · rw [Fields_eq_specSplit]
      exact h
  have hp : l.parts = [PartFunc.logPart_ColorBegin] ++ [] ++
      [PartFunc.logPart_Text, PartFunc.logPart_ColorEnd, PartFunc.logPart_Line] := by
    rw [hl, SetPartsByString_eq, filterMap_specDirective_of_none _ hnone]
  refine ⟨hp, ?_⟩
  intro hpass hc
  rw [Log_framed_output T sys l pr s t [] hpass hp, hc, partsText_nil]
  simp

/-- Witness of C10: the empty string, a string of blanks and tabs, and a string of
unrecognized tokens; the text `hi` is written as `hi` and a newline. -/
theorem C10_degenerate_directive_witness :
    (SetPartsByString sampleLogger []).parts =
      [PartFunc.logPart_ColorBegin, PartFunc.logPart_Text,
        PartFunc.logPart_ColorEnd, PartFunc.logPart_Line] ∧
    (SetPartsByString sampleLogger " \t  ".data).parts =
      [PartFunc.logPart_ColorBegin, PartFunc.logPart_Text,
        PartFunc.logPart_ColorEnd, PartFunc.logPart_Line] ∧
    (Log sampleTables sampleSys (SetPartsByString sampleLogger "%Q %x L%".data, sampleProc)
      Level_Info "hi".data).1.output = ["hi\n".data] :=
  ⟨(C10_degenerate_directive sampleTables sampleSys sampleLogger
      (SetPartsByString sampleLogger []) sampleProc Level_Info "hi".data []
      (Or.inl rfl) rfl).1,
   (C10_degenerate_directive sampleTables sampleSys sampleLogger
      (SetPartsByString sampleLogger " \t  ".data) sampleProc Level_Info "hi".data
      " \t  ".data (Or.inr (Or.inl (by decide))) rfl).1,
   (C10_degenerate_directive sampleTables sampleSys sampleLogger
      (SetPartsByString sampleLogger "%Q %x L%".data) sampleProc Level_Info "hi".data
      "%Q %x L%".data (Or.inr (Or.inr (by decide))) rfl).2 (by decide) (by decide)⟩

/-! ## Colour escapes -/

theorem logPart_ColorBegin_eq (T : Tables) (l : Logger) :
    logPart_ColorBegin T l =
      if l.enableColor = true ∧ l.currColor ≠ T.NoColor then
        WriteRawString l (T.logColorPrefix l.currColor)
      else l := by
  unfold logPart_ColorBegin
  by_cases he : l.enableColor = true <;> by_cases hc : l.currColor = T.NoColor <;>
    simp [he, hc]

theorem logPart_ColorEnd_eq (T : Tables) (l : Logger) :
    logPart_ColorEnd T l =
      if l.enableColor = true ∧ l.currColor ≠ T.NoColor then
        WriteRawString l T.logColorSuffix
      else l := by
  unfold logPart_ColorEnd
  by_cases he : l.enableColor = true <;> by_cases hc : l.currColor = T.NoColor <;>
    simp [he, hc]

/-- With colouring disabled a part reads the name, the severity and the text only, and
does not use the severity colour table. -/
theorem partText_colorOff_congr (T : Tables) (g : Level → Color) (sys : Sys) (p : PartFunc)
    (l1 l2 : Logger) (pr : Proc) (h1 : l1.enableColor = false) (h2 : l2.enableColor = false)
    (hn : l1.name = l2.name) (hl : l1.currLevel = l2.currLevel)
    (ht : l1.currText = l2.currText) :
    partText { T with colorFromLevel := g } sys p l1 pr = partText T sys p l2 pr ∧
      partProc { T with colorFromLevel := g } sys p l1 pr = partProc T sys p l2 pr := by
  cases p
  case logPart_ColorBegin =>
    rw [partText_ColorBegin, partText_ColorBegin, h1, h2]
    exact ⟨rfl, rfl⟩
  case logPart_ColorEnd =>
    rw [partText_ColorEnd, partText_ColorEnd, h1, h2]
    exact ⟨rfl, rfl⟩
  case logPart_Text =>
    rw [partText_Text, partText_Text, ht]
    exact ⟨rfl, rfl⟩
  case logPart_Line =>
    rw [partText_Line, partText_Line, ht]
    exact ⟨rfl, rfl⟩
  case LogPart_ShortFileName =>
    simp [partText, partProc, callPart, LogPart_ShortFileName, writeFilePart,
      WriteRawByte_eq, itoa_eq]
  case LogPart_LongFileName =>
    simp [partText, partProc, callPart, LogPart_LongFileName, writeFilePart,
      WriteRawByte_eq, itoa_eq]
  case LogPart_Level =>
    simp [partText, partProc, callPart, LogPart_Level, WriteRawByte_eq, hl]
  case LogPart_Name =>
    rw [partText_Name, partText_Name, hn]
    exact ⟨rfl, rfl⟩
  case LogPart_Pid =>
    simp [partText, partProc, callPart, LogPart_Pid, itoa_eq]
  case LogPart_Gid =>
    simp [partText, partProc, callPart, LogPart_Gid, itoa_eq]
  case LogPart_Time =>
    simp [partText, partProc, callPart, LogPart_Time, writeTimePart, WriteRawByte_eq,
      itoa_eq]
  case LogPart_TimeMS =>
    simp [partText, partProc, callPart, LogPart_TimeMS, writeTimePart, WriteRawByte_eq,
      itoa_eq]

theorem partsText_colorOff_congr (T : Tables) (g : Level → Color) (sys : Sys)
    (ps : List PartFunc) (l1 l2 : Logger) (pr : Proc) (h1 : l1.enableColor = false)
    (h2 : l2.enableColor = false) (hn : l1.name = l2.name)
    (hl : l1.currLevel = l2.currLevel) (ht : l1.currText = l2.currText) :
    partsText { T with colorFromLevel := g } sys ps l1 pr = partsText T sys ps l2 pr ∧
      partsProc { T with colorFromLevel := g } sys ps l1 pr = partsProc T sys ps l2 pr := by
  induction ps generalizing pr with
  | nil => exact ⟨rfl, rfl⟩
  | cons p ps ih =>
    have e := partText_colorOff_congr T g sys p l1 l2 pr h1 h2 hn hl ht
    have e2 := ih (partProc T sys p l2 pr)
    rw [partsText_cons, partsText_cons, partsProc_cons, partsProc_cons, e.1, e.2]
    exact ⟨by rw [e2.1], e2.2⟩

/-- C11. Colour escapes only when enabled and resolved: `logPart_ColorBegin` appends the
escape of the current colour, and `logPart_ColorEnd` the reset escape, exactly when
colouring is enabled and the current colour is not `NoColor`, and otherwise they leave the
logger as it is. With colouring disabled, what `Log(s, t)` writes is the same for every
matcher attached, every colour preset in the current colour and every severity colour
table. -/
theorem C11_color_escapes_only_when_enabled (T : Tables) (sys : Sys) (l : Logger)
    (pr : Proc) (s : Level) (t : GoString) (m : Option ColorFile) (c : Color)
    (g : Level → Color) (hoff : l.enableColor = false) :
    (∀ k : Logger, logPart_ColorBegin T k =
      if k.enableColor = true ∧ k.currColor ≠ T.NoColor then
        WriteRawString k (T.logColorPrefix k.currColor)
      else k) ∧
    (∀ k : Logger, logPart_ColorEnd T k =
      if k.enableColor = true ∧ k.currColor ≠ T.NoColor then
        WriteRawString k T.logColorSuffix
      else k) ∧
    (Log { T with colorFromLevel := g } sys
        ({ l with colorFile := m, currColor := c }, pr) s t).1.output =
      (Log T sys (l, pr) s t).1.output := by
  refine ⟨logPart_ColorBegin_eq T, logPart_ColorEnd_eq T, ?_⟩
  by_cases h : s < l.level
  · rw [Log_of_lt T sys l pr s t h,
      Log_of_lt { T with colorFromLevel := g } sys { l with colorFile := m, currColor := c }
        pr s t h]
  · rw [Log_of_not_lt T sys l pr s t h,
      Log_of_not_lt { T with colorFromLevel := g } sys
        { l with colorFile := m, currColor := c } pr s t h]
    have e := partsText_colorOff_congr T g sys l.parts
      (Log.ready { T with colorFromLevel := g } { l with colorFile := m, currColor := c } s t)
      (Log.ready T l s t) pr
      (by rw [Log.ready_enableColor]; exact hoff)
      (by rw [Log.ready_enableColor]; exact hoff)
      (by rw [Log.ready_name, Log.ready_name])
      (by rw [Log.ready_currLevel, Log.ready_currLevel])
      (by rw [Log.ready_currText, Log.ready_currText])
    show l.output ++ [_] = l.output ++ [_]
    rw [e.1]

/-- Witness of C11: colouring off; a matcher that colours every text, a preset colour and
a severity table that colours every severity change nothing in the line written. -/
theorem C11_color_escapes_only_when_enabled_witness :
    (Log { sampleTables with colorFromLevel := fun _ => 3 } sampleSys
        ({ SetPartsByString sampleLogger "%L %N".data with
            colorFile := some { ColorFromText := fun _ => 5 }, currColor := 2 },
          sampleProc) Level_Error "oops".data).1.output =
      (Log sampleTables sampleSys (SetPartsByString sampleLogger "%L %N".data, sampleProc)
        Level_Error "oops".data).1.output ∧
    (Log sampleTables sampleSys (SetPartsByString sampleLogger "%L %N".data, sampleProc)
        Level_Error "oops".data).1.output = ["ERROR svc oops\n".data] :=
  ⟨(C11_color_escapes_only_when_enabled sampleTables sampleSys
      (SetPartsByString sampleLogger "%L %N".data) sampleProc Level_Error "oops".data
      (some { ColorFromText := fun _ => 5 }) 2 (fun _ => 3) (by decide)).2.2,
    by decide⟩

/-! ## The constructor -/

theorem New_eq (registry : List GoString) (name : GoString) :
    (New registry name).1 =
      { buf := [], level := Level_Debug, enableColor := false, name := name,
        colorFile := none,
        parts := [PartFunc.logPart_ColorBegin, PartFunc.LogPart_Level,
          PartFunc.LogPart_Name, PartFunc.LogPart_Time, PartFunc.logPart_Text,
          PartFunc.logPart_ColorEnd, PartFunc.logPart_Line],
        output := [], currColor := 0, currLevel := 0, currText := [] } := rfl

/-- C12. Constructor defaults: `New(name)` returns a logger whose threshold is
`Level_Debug`, so that calls at Debug, Info, Warn and Error pass the filter and each make
one write; whose name is the given name; whose colouring is disabled, with no matcher and,
`NoColor` being the zero value of the colour type, no current colour; whose buffer is
empty; and whose pipeline is `logPart_ColorBegin`, `LogPart_Level`, `LogPart_Name`,
`LogPart_Time`, `logPart_Text`, `logPart_ColorEnd`, `logPart_Line`. -/
theorem C12_New_defaults (T : Tables) (sys : Sys) (pr : Proc) (registry : List GoString)
    (name t : GoString) (hz : T.NoColor = 0) :
    (New registry name).1.level = Level_Debug ∧
    (∀ s ∈ [Level_Debug, Level_Info, Level_Warn, Level_Error],
      ¬ s < (New registry name).1.level ∧
        (Log T sys ((New registry name).1, pr) s t).1.output.length = 1) ∧
    (New registry name).1.name = name ∧
    (New registry name).1.enableColor = false ∧
    (New registry name).1.colorFile.isNone = true ∧
    (New registry name).1.currColor = T.NoColor ∧
    (New registry name).1.buf = [] ∧
    (New registry name).1.parts =
      [PartFunc.logPart_ColorBegin, PartFunc.LogPart_Level, PartFunc.LogPart_Name,
        PartFunc.LogPart_Time, PartFunc.logPart_Text, PartFunc.logPart_ColorEnd,
        PartFunc.logPart_Line] := by
  refine ⟨rfl, ?_, rfl, rfl, rfl, ?_, rfl, rfl⟩
  · intro s hs
    have hpass : ¬ s < (New registry name).1.level := by
      show ¬ s < Level_Debug
      simp only [List.mem_cons, List.mem_singleton, List.not_mem_nil, or_false] at hs
      rcases hs with h | h | h | h <;> rw [h] <;> decide
    refine ⟨hpass, ?_⟩
    rw [Log_of_not_lt T sys _ pr s t hpass]
    rfl
  · rw [hz]
    rfl

/-- Witness of C12: the logger `New("svc")`, with the sample tables, whose `NoColor` is 0;
an Info call on it writes one line. -/
theorem C12_New_defaults_witness :
    (New [] "svc".data).1.currColor = sampleTables.NoColor ∧
    (Log sampleTables sampleSys ((New [] "svc".data).1, sampleProc) Level_Info
      "hi".data).1.output = ["INFO svc 2024/01/02 03:04:05 hi\n".data] :=
  ⟨(C12_New_defaults sampleTables sampleSys sampleProc [] "svc".data "hi".data rfl).2.2.2.2.2.1,
    by decide⟩

/-! ## The framing invariant -/

theorem framedPipeline_of_framed (f : List PartFunc) :
    framedPipeline ([PartFunc.logPart_ColorBegin] ++ f ++
      [PartFunc.logPart_Text, PartFunc.logPart_ColorEnd, PartFunc.logPart_Line]) = true := by
  have hd : ([PartFunc.logPart_ColorBegin] ++ f ++
      [PartFunc.logPart_Text, PartFunc.logPart_ColorEnd, PartFunc.logPart_Line]).drop
        (([PartFunc.logPart_ColorBegin] ++ f ++
          [PartFunc.logPart_Text, PartFunc.logPart_ColorEnd, PartFunc.logPart_Line]).length - 3)
      = [PartFunc.logPart_Text, PartFunc.logPart_ColorEnd, PartFunc.logPart_Line] := by
    have hl : ([PartFunc.logPart_ColorBegin] ++ f ++
        [PartFunc.logPart_Text, PartFunc.logPart_ColorEnd, PartFunc.logPart_Line]).length - 3 =
        ([PartFunc.logPart_ColorBegin] ++ f).length := by
      simp
    rw [hl, List.drop_left]
  unfold framedPipeline
  rw [hd]
  simp

theorem Log_parts (T : Tables) (sys : Sys) (l : Logger) (pr : Proc) (s : Level)
    (t : GoString) : (Log T sys (l, pr) s t).1.parts = l.parts := by
  by_cases h : s < l.level
  · rw [Log_of_lt T sys l pr s t h]
  · rw [Log_of_not_lt T sys l pr s t h]

/-- Every public operation keeps a framed pipeline framed. -/
theorem applyOp_framed (T : Tables) (str2loglevel : GoString → Level) (st : Logger × Proc)
    (op : Op) (h : framedPipeline st.1.parts = true) :
    framedPipeline (applyOp T str2loglevel st op).1.parts = true := by
  cases op with
  | SetParts f => exact framedPipeline_of_framed f
  | SetPartsByString s =>
    show framedPipeline (SetPartsByString st.1 s).parts = true
    rw [SetPartsByString_eq]
    exact framedPipeline_of_framed _
  | Log sys level text =>
    show framedPipeline (Log T sys (st.1, st.2) level text).1.parts = true
    rw [Log_parts]
    exact h
  | SetLevel lv => exact h
  | SetLevelByString level => exact h
  | EnableColor v => exact h
  | SetColor name => exact h
  | SetColorFile file => exact h
  | WriteRawString s => exact h
  | WriteRawByte b => exact h

theorem runOps_framed (T : Tables) (str2loglevel : GoString → Level) (ops : List Op)
    (st : Logger × Proc) (h : framedPipeline st.1.parts = true) :
    framedPipeline (runOps T str2loglevel st ops).1.parts = true := by
  induction ops generalizing st with
  | nil => exact h
  | cons op ops ih =>
    exact ih (applyOp T str2loglevel st op) (applyOp_framed T str2loglevel st op h)

/-- C14. Pipeline framing is a reachable-state invariant: in every state reached from
`New(name)` by a sequence of the public operations, the pipeline has at least four parts,
its first part is `logPart_ColorBegin`, and its last three parts are `logPart_Text`,
`logPart_ColorEnd`, `logPart_Line` in that order. -/
theorem C14_framing_invariant (T : Tables) (str2loglevel : GoString → Level)
    (registry : List GoString) (name : GoString) (pr : Proc) (ops : List Op) :
    4 ≤ (runOps T str2loglevel ((New registry name).1, pr) ops).1.parts.length ∧
    (runOps T str2loglevel ((New registry name).1, pr) ops).1.parts.head? =
      some PartFunc.logPart_ColorBegin ∧
    (runOps T str2loglevel ((New registry name).1, pr) ops).1.parts.drop
        ((runOps T str2loglevel ((New registry name).1, pr) ops).1.parts.length - 3) =
      [PartFunc.logPart_Text, PartFunc.logPart_ColorEnd, PartFunc.logPart_Line] := by
  have h0 : framedPipeline (New registry name).1.parts = true :=
    framedPipeline_of_framed
      [PartFunc.LogPart_Level, PartFunc.LogPart_Name, PartFunc.LogPart_Time]
  have h := runOps_framed T str2loglevel ops ((New registry name).1, pr) h0
  simp only [framedPipeline, Bool.and_eq_true, decide_eq_true_eq, beq_iff_eq] at h
  exact ⟨h.1.1, h.1.2, h.2⟩

/-! ## The file parts -/

theorem takeWhile_stop (q : Char → Bool) (x y : List Char) (d : Char)
    (hx : ∀ c ∈ x, q c = true) (hd : q d = false) : (x ++ d :: y).takeWhile q = x := by
  induction x with
  | nil => simp [List.takeWhile, hd]
  | cons c cs ih =>
    have hc : q c = true := hx c (List.mem_cons_self c cs)
    simp [List.takeWhile, hc, ih (fun e he => hx e (List.mem_cons_of_mem c he))]

theorem takeWhile_all (q : Char → Bool) (x : List Char) (hx : ∀ c ∈ x, q c = true) :
    x.takeWhile q = x := by
  induction x with
  | nil => rfl
  | cons c cs ih =>
    have hc : q c = true := hx c (List.mem_cons_self c cs)
    simp [List.takeWhile, hc, ih (fun e he => hx e (List.mem_cons_of_mem c he))]

theorem specLastSegment_slash (a b : GoString) (hb : '/' ∉ b) :
    specLastSegment (a ++ '/' :: b) = b := by
  unfold specLastSegment
  have e : (a ++ '/' :: b).reverse = b.reverse ++ '/' :: a.reverse := by simp
  rw [e, takeWhile_stop _ b.reverse a.reverse '/' _ (by decide), List.reverse_reverse]
  intro c hc
  have hcb : c ∈ b := List.mem_reverse.1 hc
  have hne : c ≠ '/' := fun h => hb (h ▸ hcb)
  simpa using hne

theorem specLastSegment_no_slash (p : GoString) (h : '/' ∉ p) : specLastSegment p = p := by
  unfold specLastSegment
  rw [takeWhile_all _ p.reverse, List.reverse_reverse]
  intro c hc
  have hcp : c ∈ p := List.mem_reverse.1 hc
  have hne : c ≠ '/' := fun e => h (e ▸ hcp)
  simpa using hne

theorem exists_last_slash (l : GoString) (h : '/' ∈ l) :
    ∃ a b, l = a ++ '/' :: b ∧ '/' ∉ b := by
  induction l with
  | nil => simp at h
  | cons x xs ih =>
    by_cases hxs : '/' ∈ xs
    · obtain ⟨a, b, e, hb⟩ := ih hxs
      exact ⟨x :: a, b, by rw [e]; rfl, hb⟩
    · have hx : x = '/' := by
        rcases List.mem_cons.1 h with h1 | h1
        · exact h1.symm
        · exact absurd h1 hxs
      exact ⟨[], xs, by rw [hx]; rfl, hxs⟩

/-- The loop leaves the path as it is when no index above 0 holds a `/`. -/
theorem shortLoop_no_inner_slash (file : GoString) (h : '/' ∉ file.tail) (i : Nat) :
    shortLoop file i = file := by
  induction i with
  | zero => rfl
  | succ i ih =>
    have hne : file.get? (i + 1) ≠ some '/' := by
      intro e
      apply h
      cases file with
      | nil => simp at e
      | cons c cs =>
        simp only [List.get?_cons_succ] at e
        exact List.get?_mem e
    simp only [shortLoop, hne, if_false]
    exact ih

theorem shortLoop_after_slash (a b : GoString) (ha : a ≠ []) (hb : '/' ∉ b) (k : Nat)
    (hk : k ≤ b.length) : shortLoop (a ++ '/' :: b) (a.length + k) = b := by
  induction k with
  | zero =>
    cases a with
    | nil => exact absurd rfl ha
    | cons c cs =>
      have hg0 : (cs ++ '/' :: b)[cs.length]? = some '/' := by
        rw [List.getElem?_append_right (Nat.le_refl _)]
        simp
      have hg : (c :: cs ++ '/' :: b).get? (cs.length + 1) = some '/' := by
        rw [List.get?_eq_getElem?, List.cons_append, List.getElem?_cons_succ]
        exact hg0
      have hd : (c :: cs ++ '/' :: b).drop (cs.length + 2) = b := by
        simp
      show shortLoop (c :: cs ++ '/' :: b) (cs.length + 1) = b
      simp only [shortLoop, hg, if_true]
      exact hd
  | succ k ih =>
    have hk2 : k < b.length := hk
    have hg : (a ++ '/' :: b).get? (a.length + k + 1) = b.get? k := by
      simp [List.get?_eq_getElem?, List.getElem?_append_right, Nat.add_assoc]
    have hne : (a ++ '/' :: b).get? (a.length + k + 1) ≠ some '/' := by
      rw [hg]
      intro e
      exact hb (List.get?_mem e)
    show shortLoop (a ++ '/' :: b) (a.length + k + 1) = b
    simp only [shortLoop, hne, if_false]
    exact ih (Nat.le_of_lt hk2)

/-- Where the loop agrees with the specification: the short name is the final path
segment when the path does not start with its only `/`. -/
theorem shortLoop_eq_specLastSegment (p : GoString)
    (h : p.head? ≠ some '/' ∨ '/' ∈ p.tail) :
    shortLoop p (p.length - 1) = specLastSegment p := by
  by_cases ht : '/' ∈ p.tail
  · cases p with
    | nil => simp at ht
    | cons c cs =>
      obtain ⟨a, b, e, hb⟩ := exists_last_slash cs ht
      have e2 : c :: cs = (c :: a) ++ '/' :: b := by rw [e]; rfl
      have hlen : (c :: cs).length - 1 = (c :: a).length + b.length := by
        rw [e]
        simp
        omega
      rw [hlen, e2, shortLoop_after_slash (c :: a) b (by simp) hb b.length (Nat.le_refl _),
        specLastSegment_slash (c :: a) b hb]
  · have hp : '/' ∉ p := by
      cases p with
      | nil => simp
      | cons c cs =>
        intro hm
        rcases List.mem_cons.1 hm with h1 | h1
        · rcases h with h2 | h2
          · exact h2 (by rw [← h1]; rfl)
          · exact ht h2
        · exact ht h1
    rw [shortLoop_no_inner_slash p ht, specLastSegment_no_slash p hp]

/-- The text of the long file part: the path, a colon, the line number, a colon and a
space. -/
theorem LogPart_LongFileName_buf (T : Tables) (sys : Sys) (l : Logger)
    (hok : sys.callerOk = true) :
    (LogPart_LongFileName T sys l).buf =
      l.buf ++ (sys.callerFile ++ ":".data ++ T.itoa sys.callerLine (-1) ++ ": ".data) := by
  simp [LogPart_LongFileName, writeFilePart, WriteRawByte_eq, itoa_eq, hok]

/-- The text of the short file part: what the loop leaves of the path, a colon, the line
number, a colon and a space. -/
theorem LogPart_ShortFileName_buf (T : Tables) (sys : Sys) (l : Logger)
    (hok : sys.callerOk = true) :
    (LogPart_ShortFileName T sys l).buf =
      l.buf ++ (shortLoop sys.callerFile (sys.callerFile.length - 1) ++ ":".data ++
        T.itoa sys.callerLine (-1) ++ ": ".data) := by
  simp [LogPart_ShortFileName, writeFilePart, WriteRawByte_eq, itoa_eq, hok]

/-- C15, evaluated where it fails: the caller file `/main.go`, a source file in the root
directory, at line 17. The final path segment is `main.go`; the short file part writes
`/main.go:17: `, the same bytes as the long file part, because the loop of
`writeFilePart` does not look at index 0. -/
theorem C15_short_name_keeps_leading_slash :
    specLastSegment "/main.go".data = "main.go".data ∧
    (LogPart_ShortFileName sampleTables { sampleSys with callerFile := "/main.go".data }
      { sampleLogger with buf := [] }).buf = "/main.go:17: ".data ∧
    (LogPart_LongFileName sampleTables { sampleSys with callerFile := "/main.go".data }
      { sampleLogger with buf := [] }).buf = "/main.go:17: ".data ∧
    (LogPart_ShortFileName sampleTables sampleSys { sampleLogger with buf := [] }).buf =
      "main.go:17: ".data := by
  decide

/-! ## Filtered calls -/

/-- C16. A filtered call does no formatting work: for a severity below the threshold,
`Log(s, t)` stores `s` and `t` in the call state and changes nothing else. The buffer, the
current colour, the pipeline, the threshold, the name, the colour flag, the matcher, the
history of the writer and the process state (clock readings, `Goid`) are as before; the
result depends neither on the tables nor on the runtime, so no part ran, and not on what
the matcher answers, so it was not consulted. -/
theorem C16_filtered_call_frame (T : Tables) (sys : Sys) (l : Logger) (pr : Proc)
    (s : Level) (t : GoString) (h : s < l.level) :
    Log T sys (l, pr) s t = ({ l with currLevel := s, currText := t }, pr) ∧
    (Log T sys (l, pr) s t).1.currLevel = s ∧
    (Log T sys (l, pr) s t).1.currText = t ∧
    (Log T sys (l, pr) s t).1.buf = l.buf ∧
    (Log T sys (l, pr) s t).1.currColor = l.currColor ∧
    (Log T sys (l, pr) s t).1.parts = l.parts ∧
    (Log T sys (l, pr) s t).1.level = l.level ∧
    (Log T sys (l, pr) s t).1.name = l.name ∧
    (Log T sys (l, pr) s t).1.enableColor = l.enableColor ∧
    (Log T sys (l, pr) s t).1.colorFile = l.colorFile ∧
    (Log T sys (l, pr) s t).1.output = l.output ∧
    (Log T sys (l, pr) s t).2 = pr ∧
    (∀ (T2 : Tables) (sys2 : Sys) (m : Option ColorFile),
      (Log T2 sys2 ({ l with colorFile := m }, pr) s t).1.buf = l.buf ∧
      (Log T2 sys2 ({ l with colorFile := m }, pr) s t).1.currColor = l.currColor ∧
      (Log T2 sys2 ({ l with colorFile := m }, pr) s t).1.output = l.output) := by
  have e := Log_of_lt T sys l pr s t h
  refine ⟨e, ?_, ?_, ?_, ?_, ?_, ?_, ?_, ?_, ?_, ?_, ?_, ?_⟩
  all_goals first
    | (rw [e])
    | (intro T2 sys2 m
       rw [Log_of_lt T2 sys2 { l with colorFile := m } pr s t h]
       exact ⟨rfl, rfl, rfl⟩)

/-- Witness of C16: a Debug call on the sample logger, whose threshold is Info, with a
colour preset and a stale buffer. -/
theorem C16_filtered_call_frame_witness :
    (Log sampleTables sampleSys (SetColor sampleTables colorLogger "red".data, sampleProc)
      Level_Debug "oops".data).1.buf = "stale".data ∧
    (Log sampleTables sampleSys (SetColor sampleTables colorLogger "red".data, sampleProc)
      Level_Debug "oops".data).1.currColor = 2 ∧
    (Log sampleTables sampleSys (SetColor sampleTables colorLogger "red".data, sampleProc)
      Level_Debug "oops".data).1.output = [] :=
  ⟨(C16_filtered_call_frame sampleTables sampleSys
      (SetColor sampleTables colorLogger "red".data) sampleProc Level_Debug "oops".data
      (by decide)).2.2.2.1,
   (C16_filtered_call_frame sampleTables sampleSys
      (SetColor sampleTables colorLogger "red".data) sampleProc Level_Debug "oops".data
      (by decide)).2.2.2.2.1,
   (C16_filtered_call_frame sampleTables sampleSys
      (SetColor sampleTables colorLogger "red".data) sampleProc Level_Debug "oops".data
      (by decide)).2.2.2.2.2.2.2.2.2.2.1⟩

/-! ## The colour call state across calls -/

theorem Log_config (T : Tables) (sys : Sys) (l : Logger) (pr : Proc) (s : Level)
    (t : GoString) :
    (Log T sys (l, pr) s t).1.level = l.level ∧
      (Log T sys (l, pr) s t).1.enableColor = l.enableColor ∧
      (Log T sys (l, pr) s t).1.colorFile = l.colorFile := by
  by_cases h : s < l.level
  · rw [Log_of_lt T sys l pr s t h]
    exact ⟨rfl, rfl, rfl⟩
  · rw [Log_of_not_lt T sys l pr s t h]
    exact ⟨rfl, rfl, rfl⟩

theorem Log_currColor_of_pass (T : Tables) (sys : Sys) (l : Logger) (pr : Proc) (s : Level)
    (t : GoString) (h : ¬ s < l.level) :
    (Log T sys (l, pr) s t).1.currColor = T.NoColor := by
  rw [Log_of_not_lt T sys l pr s t h]

theorem Log_currColor_of_filtered (T : Tables) (sys : Sys) (l : Logger) (pr : Proc)
    (s : Level) (t : GoString) (h : s < l.level) :
    (Log T sys (l, pr) s t).1.currColor = l.currColor := by
  rw [Log_of_lt T sys l pr s t h]

theorem logSeq_cons (T : Tables) (sys : Sys) (st : Logger × Proc) (c : Level × GoString)
    (cs : List (Level × GoString)) :
    logSeq T sys st (c :: cs) = logSeq T sys (Log T sys st c.1 c.2) cs := rfl

theorem logSeq_config (T : Tables) (sys : Sys) (calls : List (Level × GoString))
    (l : Logger) (pr : Proc) :
    (logSeq T sys (l, pr) calls).1.level = l.level ∧
      (logSeq T sys (l, pr) calls).1.enableColor = l.enableColor ∧
      (logSeq T sys (l, pr) calls).1.colorFile = l.colorFile := by
  induction calls generalizing l pr with
  | nil => exact ⟨rfl, rfl, rfl⟩
  | cons c cs ih =>
    have h1 := Log_config T sys l pr c.1 c.2
    have h2 := ih (Log T sys (l, pr) c.1 c.2).1 (Log T sys (l, pr) c.1 c.2).2
    rw [logSeq_cons]
    exact ⟨h2.1.trans h1.1, h2.2.1.trans h1.2.1, h2.2.2.trans h1.2.2⟩

/-- The invariant: a sequence of calls that starts with no current colour ends with no
current colour. -/
theorem logSeq_noColor (T : Tables) (sys : Sys) (calls : List (Level × GoString))
    (l : Logger) (pr : Proc) (hn : l.currColor = T.NoColor) :
    (logSeq T sys (l, pr) calls).1.currColor = T.NoColor := by
  induction calls generalizing l pr with
  | nil => exact hn
  | cons c cs ih =>
    rw [logSeq_cons]
    apply ih (Log T sys (l, pr) c.1 c.2).1 (Log T sys (l, pr) c.1 c.2).2
    by_cases h : c.1 < l.level
    · rw [Log_currColor_of_filtered T sys l pr c.1 c.2 h]
      exact hn
    · exact Log_currColor_of_pass T sys l pr c.1 c.2 h

/-- Filtered calls leave the current colour and the process state as they are. -/
theorem logSeq_filtered (T : Tables) (sys : Sys) (calls : List (Level × GoString))
    (l : Logger) (pr : Proc) (hf : ∀ c ∈ calls, c.1 < l.level) :
    (logSeq T sys (l, pr) calls).1.currColor = l.currColor ∧
      (logSeq T sys (l, pr) calls).1.output = l.output ∧
      (logSeq T sys (l, pr) calls).2 = pr := by
  induction calls generalizing l with
  | nil => exact ⟨rfl, rfl, rfl⟩
  | cons c cs ih =>
    have hc : c.1 < l.level := hf c (List.mem_cons_self c cs)
    rw [logSeq_cons, Log_of_lt T sys l pr c.1 c.2 hc]
    exact ih { l with currLevel := c.1, currText := c.2 }
      (fun d hd => hf d (List.mem_cons_of_mem c hd))

/-- The colour selected for a call is a function of the colour flag, the matcher, the
current colour at entry, the severity and the text. -/
theorem Log.ready_currColor_congr (T : Tables) (l1 l2 : Logger) (s : Level) (t : GoString)
    (he : l1.enableColor = l2.enableColor) (hm : l1.colorFile = l2.colorFile)
    (hc : l1.currColor = l2.currColor) :
    (Log.ready T l1 s t).currColor = (Log.ready T l2 s t).currColor := by
  cases hm2 : l2.colorFile <;>
    by_cases hl : T.colorFromLevel s = T.NoColor <;>
    by_cases hb : (l2.enableColor && l2.currColor == T.NoColor) = true <;>
    simp [Log.ready, selectColorByLevel, selectColorByText, he, hm, hc, hm2, hl, hb]

/-- With a colour other than `NoColor` at entry the matcher is not asked: the colour
selected is the severity colour when that is not `NoColor`, and the colour at entry
otherwise. -/
theorem Log.ready_currColor_of_preset (T : Tables) (l : Logger) (s : Level) (t : GoString)
    (hc : l.currColor ≠ T.NoColor) :
    (Log.ready T l s t).currColor =
      if T.colorFromLevel s ≠ T.NoColor then T.colorFromLevel s else l.currColor := by
  cases hm : l.colorFile <;>
    by_cases hl : T.colorFromLevel s = T.NoColor <;>
    simp [Log.ready, selectColorByLevel, selectColorByText, hm, hc, hl]

/-- C17 as stated fails: with the colour `red` preset by `SetColor` and threshold Info,
the colour used by the call `Log(Info, "x")` depends on the severity of the call before
it. After a Debug call, which is filtered, the preset is still there and the line is
written in red; after an Error call, which passes, the colour was reset and the line has no
colour. -/
theorem C17_color_depends_on_earlier_severity :
    (Log.ready sampleTables
        (Log sampleTables sampleSys (presetLogger, sampleProc) Level_Debug "a".data).1
        Level_Info "x".data).currColor = 2 ∧
    (Log.ready sampleTables
        (Log sampleTables sampleSys (presetLogger, sampleProc) Level_Error "a".data).1
        Level_Info "x".data).currColor = sampleTables.NoColor ∧
    (logSeq sampleTables sampleSys (presetLogger, sampleProc)
        [(Level_Debug, "a".data), (Level_Info, "x".data)]).1.output =
      [[Char.ofNat 27] ++ "[031mINFO x".data ++ [Char.ofNat 27] ++ "[0m\n".data] ∧
    (logSeq sampleTables sampleSys (presetLogger, sampleProc)
        [(Level_Error, "a".data), (Level_Info, "x".data)]).1.output =
      [[Char.ofNat 27] ++ "[031mERROR a".data ++ [Char.ofNat 27] ++ "[0m\n".data,
        "INFO x\n".data] := by
  decide

/-- C17, amended. After every `Log` call that passes the filter the current colour is
`NoColor`; a logger whose current colour is `NoColor` has current colour `NoColor` after
every sequence of `Log` calls, filtered or not; and on such a logger the colour used by a
`Log` call is the one it would use with no call before it, so it does not depend on the
severity or the text of an earlier call. -/
theorem C17_color_reset_invariant (T : Tables) (sys : Sys) (l : Logger) (pr : Proc)
    (calls : List (Level × GoString)) (s : Level) (t : GoString)
    (hn : l.currColor = T.NoColor) :
    (∀ (k : Logger) (q : Proc) (s1 : Level) (t1 : GoString), ¬ s1 < k.level →
      (Log T sys (k, q) s1 t1).1.currColor = T.NoColor) ∧
    (logSeq T sys (l, pr) calls).1.currColor = T.NoColor ∧
    (Log.ready T (logSeq T sys (l, pr) calls).1 s t).currColor =
      (Log.ready T l s t).currColor := by
  have hcfg := logSeq_config T sys calls l pr
  have hcol := logSeq_noColor T sys calls l pr hn
  refine ⟨fun k q s1 t1 h => Log_currColor_of_pass T sys k q s1 t1 h, hcol, ?_⟩
  exact Log.ready_currColor_congr T _ l s t hcfg.2.1 hcfg.2.2 (hcol.trans hn.symm)

/-- Witness of C17, amended: on the logger with a matcher and no preset, the colour of
`Log(Info, "oops")` is the colour 5 of the matcher after a filtered Debug call and after
an Error call that passes. -/
theorem C17_color_reset_invariant_witness :
    (Log.ready sampleTables
        (logSeq sampleTables sampleSys (colorLogger, sampleProc) [(Level_Debug, "a".data)]).1
        Level_Info "oops".data).currColor = 5 ∧
    (Log.ready sampleTables
        (logSeq sampleTables sampleSys (colorLogger, sampleProc) [(Level_Error, "a".data)]).1
        Level_Info "oops".data).currColor = 5 :=
  ⟨(C17_color_reset_invariant sampleTables sampleSys colorLogger sampleProc
      [(Level_Debug, "a".data)] Level_Info "oops".data rfl).2.2,
   (C17_color_reset_invariant sampleTables sampleSys colorLogger sampleProc
      [(Level_Error, "a".data)] Level_Info "oops".data rfl).2.2⟩

/-- A part reads the colour flag, the current colour, the name, the severity and the text
of the logger, and nothing else of it. -/
theorem partText_congr (T : Tables) (sys : Sys) (p : PartFunc) (l1 l2 : Logger) (pr : Proc)
    (he : l1.enableColor = l2.enableColor) (hc : l1.currColor = l2.currColor)
    (hn : l1.name = l2.name) (hl : l1.currLevel = l2.currLevel)
    (ht : l1.currText = l2.currText) :
    partText T sys p l1 pr = partText T sys p l2 pr ∧
      partProc T sys p l1 pr = partProc T sys p l2 pr := by
  cases p
  case logPart_ColorBegin =>
    rw [partText_ColorBegin, partText_ColorBegin, he, hc]
    exact ⟨rfl, rfl⟩
  case logPart_ColorEnd =>
    rw [partText_ColorEnd, partText_ColorEnd, he, hc]
    exact ⟨rfl, rfl⟩
  case logPart_Text =>
    rw [partText_Text, partText_Text, ht]
    exact ⟨rfl, rfl⟩
  case logPart_Line =>
    rw [partText_Line, partText_Line, ht]
    exact ⟨rfl, rfl⟩
  case LogPart_ShortFileName =>
    simp [partText, partProc, callPart, LogPart_ShortFileName, writeFilePart,
      WriteRawByte_eq, itoa_eq]
  case LogPart_LongFileName =>
    simp [partText, partProc, callPart, LogPart_LongFileName, writeFilePart,
      WriteRawByte_eq, itoa_eq]
  case LogPart_Level =>
    simp [partText, partProc, callPart, LogPart_Level, WriteRawByte_eq, hl]
  case LogPart_Name =>
    rw [partText_Name, partText_Name, hn]
    exact ⟨rfl, rfl⟩
  case LogPart_Pid =>
    simp [partText, partProc, callPart, LogPart_Pid, itoa_eq]
  case LogPart_Gid =>
    simp [partText, partProc, callPart, LogPart_Gid, itoa_eq]
  case LogPart_Time =>
    simp [partText, partProc, callPart, LogPart_Time, writeTimePart, WriteRawByte_eq,
      itoa_eq]
  case LogPart_TimeMS =>
    simp [partText, partProc, callPart, LogPart_TimeMS, writeTimePart, WriteRawByte_eq,
      itoa_eq]

theorem partsText_congr (T : Tables) (sys : Sys) (ps : List PartFunc) (l1 l2 : Logger)
    (pr : Proc) (he : l1.enableColor = l2.enableColor) (hc : l1.currColor = l2.currColor)
    (hn : l1.name = l2.name) (hl : l1.currLevel = l2.currLevel)
    (ht : l1.currText = l2.currText) :
    partsText T sys ps l1 pr = partsText T sys ps l2 pr ∧
      partsProc T sys ps l1 pr = partsProc T sys ps l2 pr := by
  induction ps generalizing pr with
  | nil => exact ⟨rfl, rfl⟩
  | cons p ps ih =>
    have e := partText_congr T sys p l1 l2 pr he hc hn hl ht
    have e2 := ih (partProc T sys p l2 pr)
    rw [partsText_cons, partsText_cons, partsProc_cons, partsProc_cons, e.1, e.2]
    exact ⟨by rw [e2.1], e2.2⟩

theorem logSeq_parts (T : Tables) (sys : Sys) (calls : List (Level × GoString))
    (l : Logger) (pr : Proc) : (logSeq T sys (l, pr) calls).1.parts = l.parts := by
  induction calls generalizing l pr with
  | nil => rfl
  | cons c cs ih =>
    rw [logSeq_cons]
    exact (ih (Log T sys (l, pr) c.1 c.2).1 (Log T sys (l, pr) c.1 c.2).2).trans
      (Log_parts T sys l pr c.1 c.2)

/-- With a colour other than `NoColor` at entry, what an unfiltered `Log` writes is the
same for every matcher attached. -/
theorem Log_output_of_preset_any_matcher (T : Tables) (sys : Sys) (l : Logger) (pr : Proc)
    (s : Level) (t : GoString) (m : Option ColorFile) (hc : l.currColor ≠ T.NoColor)
    (h : ¬ s < l.level) :
    (Log T sys ({ l with colorFile := m }, pr) s t).1.output =
      (Log T sys (l, pr) s t).1.output := by
  have hc2 : ({ l with colorFile := m } : Logger).currColor ≠ T.NoColor := hc
  have ec : (Log.ready T { l with colorFile := m } s t).currColor =
      (Log.ready T l s t).currColor := by
    rw [Log.ready_currColor_of_preset T _ s t hc2, Log.ready_currColor_of_preset T l s t hc]
  have e := partsText_congr T sys l.parts (Log.ready T { l with colorFile := m } s t)
    (Log.ready T l s t) pr
    (by rw [Log.ready_enableColor, Log.ready_enableColor])
    ec
    (by rw [Log.ready_name, Log.ready_name])
    (by rw [Log.ready_currLevel, Log.ready_currLevel])
    (by rw [Log.ready_currText, Log.ready_currText])
  rw [Log_of_not_lt T sys l pr s t h, Log_of_not_lt T sys { l with colorFile := m } pr s t h]
  show l.output ++ [_] = l.output ++ [_]
  rw [e.1]

/-- C18. Lifetime of a `SetColor` preset: a colour other than `NoColor` chosen with
`SetColor` is still the current colour after any number of filtered `Log` calls, which
write nothing. At the next call that passes the filter the colour selected is the
severity colour when that is not `NoColor` and the preset otherwise, whatever matcher is
attached: `Log` writes the buffer its parts build on the state with that colour, the
bytes are the same for every matcher, and through a framed pipeline with colouring
enabled they are the escape of that colour, the configured parts, the text, the reset
escape and the terminator. After that call the current colour is `NoColor`, and the call
after it writes the buffer built with the colour of a logger without a preset. -/
theorem C18_SetColor_preset_lifetime (T : Tables) (sys : Sys) (l : Logger) (pr : Proc)
    (name : GoString) (calls : List (Level × GoString)) (s : Level) (t : GoString)
    (s2 : Level) (t2 : GoString)
    (hc : T.colorByName name ≠ T.NoColor)
    (hf : ∀ c ∈ calls, c.1 < l.level)
    (hpass : ¬ s < l.level) :
    (logSeq T sys (SetColor T l name, pr) calls).1.currColor = T.colorByName name ∧
    (logSeq T sys (SetColor T l name, pr) calls).1.output = l.output ∧
    (∀ m : Option ColorFile,
      (Log.ready T { (logSeq T sys (SetColor T l name, pr) calls).1 with colorFile := m }
          s t).currColor =
        if T.colorFromLevel s ≠ T.NoColor then T.colorFromLevel s
        else T.colorByName name) ∧
    (Log.ready T (logSeq T sys (SetColor T l name, pr) calls).1 s t).currColor =
      (if T.colorFromLevel s ≠ T.NoColor then T.colorFromLevel s
        else T.colorByName name) ∧
    (Log T sys (logSeq T sys (SetColor T l name, pr) calls) s t).1.currColor = T.NoColor ∧
    (Log.ready T (Log T sys (logSeq T sys (SetColor T l name, pr) calls) s t).1
        s2 t2).currColor =
      (Log.ready T { l with currColor := T.NoColor } s2 t2).currColor ∧
    (Log T sys (logSeq T sys (SetColor T l name, pr) calls) s t).1.output =
      l.output ++
        [(runParts T sys l.parts
          (Log.ready T (logSeq T sys (SetColor T l name, pr) calls).1 s t, pr)).1.buf] ∧
    (∀ m : Option ColorFile,
      (Log T sys ({ (logSeq T sys (SetColor T l name, pr) calls).1 with colorFile := m },
          (logSeq T sys (SetColor T l name, pr) calls).2) s t).1.output =
        (Log T sys (logSeq T sys (SetColor T l name, pr) calls) s t).1.output) ∧
    (∀ f : List PartFunc,
      l.parts = [PartFunc.logPart_ColorBegin] ++ f ++
        [PartFunc.logPart_Text, PartFunc.logPart_ColorEnd, PartFunc.logPart_Line] →
      l.enableColor = true →
      (Log T sys (logSeq T sys (SetColor T l name, pr) calls) s t).1.output =
        l.output ++
          [T.logColorPrefix
              (if T.colorFromLevel s ≠ T.NoColor then T.colorFromLevel s
                else T.colorByName name) ++
            partsText T sys f
              (Log.ready T (logSeq T sys (SetColor T l name, pr) calls).1 s t) pr ++
            t ++ T.logColorSuffix ++ (if endsInNewline t then [] else ['\n'])]) ∧
    (¬ s2 < l.level →
      (Log T sys (Log T sys (logSeq T sys (SetColor T l name, pr) calls) s t) s2 t2).1.output =
        (Log T sys (logSeq T sys (SetColor T l name, pr) calls) s t).1.output ++
          [(runParts T sys l.parts
            (Log.ready T (Log T sys (logSeq T sys (SetColor T l name, pr) calls) s t).1
              s2 t2,
              (Log T sys (logSeq T sys (SetColor T l name, pr) calls) s t).2)).1.buf]) := by
  have hf2 : ∀ c ∈ calls, c.1 < (SetColor T l name).level := hf
  have hfl := logSeq_filtered T sys calls (SetColor T l name) pr hf2
  have hcfg := logSeq_config T sys calls (SetColor T l name) pr
  have hparts : (logSeq T sys (SetColor T l name, pr) calls).1.parts = l.parts :=
    logSeq_parts T sys calls (SetColor T l name) pr
  have hcur : (logSeq T sys (SetColor T l name, pr) calls).1.currColor =
      T.colorByName name := hfl.1
  have hout : (logSeq T sys (SetColor T l name, pr) calls).1.output = l.output := hfl.2.1
  have hproc : (logSeq T sys (SetColor T l name, pr) calls).2 = pr := hfl.2.2
  have hlev : (logSeq T sys (SetColor T l name, pr) calls).1.level = l.level := hcfg.1
  have hen : (logSeq T sys (SetColor T l name, pr) calls).1.enableColor = l.enableColor :=
    hcfg.2.1
  have hne : (logSeq T sys (SetColor T l name, pr) calls).1.currColor ≠ T.NoColor := by
    rw [hcur]
    exact hc
  have hpass2 : ¬ s < (logSeq T sys (SetColor T l name, pr) calls).1.level := by
    rw [hlev]
    exact hpass
  have hlog := Log_config T sys (logSeq T sys (SetColor T l name, pr) calls).1
    (logSeq T sys (SetColor T l name, pr) calls).2 s t
  have hreset := Log_currColor_of_pass T sys (logSeq T sys (SetColor T l name, pr) calls).1
    (logSeq T sys (SetColor T l name, pr) calls).2 s t hpass2
  have hsel : (Log.ready T (logSeq T sys (SetColor T l name, pr) calls).1 s t).currColor =
      (if T.colorFromLevel s ≠ T.NoColor then T.colorFromLevel s
        else T.colorByName name) := by
    rw [Log.ready_currColor_of_preset T _ s t hne, hcur]
  have hselne : (Log.ready T (logSeq T sys (SetColor T l name, pr) calls).1 s t).currColor ≠
      T.NoColor := by
    rw [hsel]
    by_cases hl : T.colorFromLevel s = T.NoColor
    · simpa [hl] using hc
    · simp [hl]
  have hwr : (Log T sys (logSeq T sys (SetColor T l name, pr) calls) s t).1.output =
      l.output ++
        [(runParts T sys l.parts
          (Log.ready T (logSeq T sys (SetColor T l name, pr) calls).1 s t, pr)).1.buf] := by
    have e : (Log T sys (logSeq T sys (SetColor T l name, pr) calls) s t).1.output = _ :=
      Log_output_runParts T sys (logSeq T sys (SetColor T l name, pr) calls).1
        (logSeq T sys (SetColor T l name, pr) calls).2 s t hpass2
    rw [hparts, hout, hproc] at e
    exact e
  refine ⟨hcur, hout, ?_, hsel, hreset, ?_, hwr, ?_, ?_, ?_⟩
  · intro m
    have e := Log.ready_currColor_of_preset T
      { (logSeq T sys (SetColor T l name, pr) calls).1 with colorFile := m } s t hne
    refine e.trans ?_
    show (if T.colorFromLevel s ≠ T.NoColor then T.colorFromLevel s
      else (logSeq T sys (SetColor T l name, pr) calls).1.currColor) = _
    rw [hcur]
  · exact Log.ready_currColor_congr T _ _ s2 t2 (hlog.2.1.trans hcfg.2.1)
      (hlog.2.2.trans hcfg.2.2) hreset
  · intro m
    exact Log_output_of_preset_any_matcher T sys
      (logSeq T sys (SetColor T l name, pr) calls).1
      (logSeq T sys (SetColor T l name, pr) calls).2 s t m hne hpass2
  · intro f hfr he
    have hfr2 : (logSeq T sys (SetColor T l name, pr) calls).1.parts =
        [PartFunc.logPart_ColorBegin] ++ f ++
          [PartFunc.logPart_Text, PartFunc.logPart_ColorEnd, PartFunc.logPart_Line] := by
      rw [hparts]
      exact hfr
    have hact : Log.colorActive T (logSeq T sys (SetColor T l name, pr) calls).1 s t =
        true := by
      unfold Log.colorActive
      rw [Log.ready_enableColor, hen, he]
      simpa using hselne
    have e : (Log T sys (logSeq T sys (SetColor T l name, pr) calls) s t).1.output = _ :=
      Log_framed_output T sys (logSeq T sys (SetColor T l name, pr) calls).1
        (logSeq T sys (SetColor T l name, pr) calls).2 s t f hpass2 hfr2
    rw [hact, hsel, hout, hproc] at e
    simpa using e
  · intro hp2
    have hp3 : ¬ s2 <
        (Log T sys (logSeq T sys (SetColor T l name, pr) calls) s t).1.level := by
      rw [hlog.1, hlev]
      exact hp2
    have e := Log_output_runParts T sys
      (Log T sys (logSeq T sys (SetColor T l name, pr) calls) s t).1
      (Log T sys (logSeq T sys (SetColor T l name, pr) calls) s t).2 s2 t2 hp3
    have hp : (Log T sys (logSeq T sys (SetColor T l name, pr) calls) s t).1.parts =
        l.parts :=
      (Log_parts T sys (logSeq T sys (SetColor T l name, pr) calls).1
        (logSeq T sys (SetColor T l name, pr) calls).2 s t).trans hparts
    rw [hp] at e
    exact e

/-- Witness of C18: the preset `blue` on the sample logger with the `%L` pipeline and
colouring enabled survives two filtered Debug calls; the next Info line, whose severity
has no colour, is written in blue; a Warn line, whose severity has a colour, is written in
that colour instead; the line after the Info line has no colour. -/
theorem C18_SetColor_preset_lifetime_witness :
    (Log sampleTables sampleSys
        (logSeq sampleTables sampleSys
          (SetColor sampleTables (EnableColor (SetPartsByString sampleLogger "%L".data) true)
            "blue".data, sampleProc)
          [(Level_Debug, "a".data), (Level_Debug, "b".data)])
        Level_Info "x".data).1.output =
      [[Char.ofNat 27] ++ "[034mINFO x".data ++ [Char.ofNat 27] ++ "[0m\n".data] ∧
    (Log sampleTables sampleSys
        (logSeq sampleTables sampleSys
          (SetColor sampleTables (EnableColor (SetPartsByString sampleLogger "%L".data) true)
            "blue".data, sampleProc)
          [(Level_Debug, "a".data), (Level_Debug, "b".data)])
        Level_Warn "x".data).1.output =
      [[Char.ofNat 27] ++ "[033mWARN x".data ++ [Char.ofNat 27] ++ "[0m\n".data] ∧
    (logSeq sampleTables sampleSys
        (SetColor sampleTables (EnableColor (SetPartsByString sampleLogger "%L".data) true)
          "blue".data, sampleProc)
        [(Level_Debug, "a".data), (Level_Debug, "b".data), (Level_Info, "x".data),
          (Level_Info, "y".data)]).1.output =
      [[Char.ofNat 27] ++ "[034mINFO x".data ++ [Char.ofNat 27] ++ "[0m\n".data,
        "INFO y\n".data] ∧
    (logSeq sampleTables sampleSys
        (SetColor sampleTables (EnableColor (SetPartsByString sampleLogger "%L".data) true)
          "blue".data, sampleProc)
        [(Level_Debug, "a".data), (Level_Warn, "x".data), (Level_Info, "y".data)]).1.output =
      [[Char.ofNat 27] ++ "[033mWARN x".data ++ [Char.ofNat 27] ++ "[0m\n".data,
        "INFO y\n".data] :=
  ⟨(C18_SetColor_preset_lifetime sampleTables sampleSys
      (EnableColor (SetPartsByString sampleLogger "%L".data) true) sampleProc "blue".data
      [(Level_Debug, "a".data), (Level_Debug, "b".data)] Level_Info "x".data
      Level_Info "y".data (by decide) (by decide) (by decide)).2.2.2.2.2.2.2.2.1
      [PartFunc.LogPart_Level] (by decide) rfl,
   (C18_SetColor_preset_lifetime sampleTables sampleSys
      (EnableColor (SetPartsByString sampleLogger "%L".data) true) sampleProc "blue".data
      [(Level_Debug, "a".data), (Level_Debug, "b".data)] Level_Warn "x".data
      Level_Info "y".data (by decide) (by decide) (by decide)).2.2.2.2.2.2.2.2.1
      [PartFunc.LogPart_Level] (by decide) rfl,
    by decide, by decide⟩

/-! ## The threshold -/

/-- C19. `IsDebugEnabled` agrees with the filter: for a threshold among Debug, Info, Warn
and Error, `IsDebugEnabled()` is true exactly when `Log(Level_Debug, t)` passes the
filter, which is exactly when that call makes a write; and after `SetLevel(lv)` the method
`Level()` returns `lv`. -/
theorem C19_IsDebugEnabled_agrees_with_filter (T : Tables) (sys : Sys) (l : Logger)
    (pr : Proc) (t : GoString) (lv : Level)
    (hl : l.level ∈ [Level_Debug, Level_Info, Level_Warn, Level_Error]) :
    (IsDebugEnabled l = true ↔ ¬ Level_Debug < l.level) ∧
    (IsDebugEnabled l = true ↔
      (Log T sys (l, pr) Level_Debug t).1.output.length = l.output.length + 1) ∧
    (IsDebugEnabled l = false ↔
      (Log T sys (l, pr) Level_Debug t).1.output = l.output) ∧
    (SetLevel l lv).Level = lv := by
  have hiff : IsDebugEnabled l = true ↔ ¬ Level_Debug < l.level := by
    simp only [List.mem_cons, List.mem_singleton, List.not_mem_nil, or_false] at hl
    unfold IsDebugEnabled
    rcases hl with h | h | h | h <;> rw [h] <;> decide
  refine ⟨hiff, ?_, ?_, rfl⟩
  · by_cases h : Level_Debug < l.level
    · have hd : ¬ IsDebugEnabled l = true := fun e => (hiff.1 e) h
      rw [Log_of_lt T sys l pr Level_Debug t h]
      simp [hd]
    · have hd : IsDebugEnabled l = true := hiff.2 h
      rw [Log_of_not_lt T sys l pr Level_Debug t h]
      simp [hd]
  · by_cases h : Level_Debug < l.level
    · have hd : ¬ IsDebugEnabled l = true := fun e => (hiff.1 e) h
      rw [Log_of_lt T sys l pr Level_Debug t h]
      simp [hd]
    · have hd : IsDebugEnabled l = true := hiff.2 h
      rw [Log_of_not_lt T sys l pr Level_Debug t h]
      simp [hd]

/-- Witness of C19: the sample logger has threshold Info, so `IsDebugEnabled` is false and
a Debug call writes nothing; after `SetLevel(Level_Debug)` it is true and the call
writes. -/
theorem C19_IsDebugEnabled_agrees_with_filter_witness :
    IsDebugEnabled sampleLogger = false ∧
    (Log sampleTables sampleSys (sampleLogger, sampleProc) Level_Debug "hi".data).1.output =
      [] ∧
    (IsDebugEnabled (SetLevel sampleLogger Level_Debug) = true ↔
      (Log sampleTables sampleSys (SetLevel sampleLogger Level_Debug, sampleProc)
        Level_Debug "hi".data).1.output.length = 0 + 1) ∧
    (SetLevel sampleLogger Level_Warn).Level = Level_Warn :=
  ⟨by decide, by decide,
   (C19_IsDebugEnabled_agrees_with_filter sampleTables sampleSys
      (SetLevel sampleLogger Level_Debug) sampleProc "hi".data Level_Warn
      (by decide)).2.1,
   (C19_IsDebugEnabled_agrees_with_filter sampleTables sampleSys sampleLogger sampleProc
      "hi".data Level_Warn (by decide)).2.2.2⟩

end Golog
